import Mathlib

/-!
# TARS voice pipeline: WAV container, playback reader, capture, dispatch, gate

A shallow embedding of the Go sources `audio/stt.go`, `audio/player.go`,
`audio/tts.go`, `audio/capture.go`, `audio/vad.go`, `llm/openai_llm.go`,
`actions/router.go` and of `pcm16MonoToBytes` in `main.go`. The Speech
Segmentation Gate has no source in the repository and is modelled from the
specification.

Conventions of the embedding
* a Go `[]byte` is a `List Byte`, a byte being a number below 256;
* a Go `int` is an `Int`; arithmetic on it wraps to 64 bits (`wrapInt`), and the
  conversions `uint16(x)`, `uint32(x)` keep the low 16, 32 bits;
* a function that can return an error or panic returns an `Outcome`;
* a Go channel is the FIFO of the values sent and not yet received, plus the
  flag set by `close`; blocking of a sender on a full channel is not modelled.
-/

namespace Tars

/-! ## Bytes and Go integer conversions -/

/-- One byte. -/
abbrev Byte := Fin 256

/-- Go `byte(x)` for a non-negative `x`: the low 8 bits. -/
def toByte (x : Nat) : Byte := ⟨x % 256, Nat.mod_lt x (by decide)⟩

/-- Go `uint16(x)` for an `int` `x`: the low 16 bits of the two's complement. -/
def uint16 (x : Int) : Nat := (x % 65536).toNat

/-- Go `uint32(x)` for an `int` `x`: the low 32 bits of the two's complement. -/
def uint32 (x : Int) : Nat := (x % 4294967296).toNat

/-- The value a 64-bit Go `int` holds after an arithmetic result `x`. -/
def wrapInt (x : Int) : Int := (x + 9223372036854775808) % 18446744073709551616 - 9223372036854775808

/-- Go `a * b` on `int`. -/
def mulInt (a b : Int) : Int := wrapInt (a * b)

/-- Go `a / b` on `int` (truncated towards zero), for `b` not zero. -/
def divInt (a b : Int) : Int := wrapInt (Int.tdiv a b)

/-- Outcome of a Go call that returns `(value, error)` and may panic. -/
inductive Outcome (α : Type) where
  | ok (val : α)
  | error (msg : String)
  | panic (msg : String)
  deriving Repr, DecidableEq

/-- The bytes of an ASCII string, as `bytes.Buffer.WriteString` appends them. -/
def asciiBytes (s : String) : List Byte := s.toList.map (fun c => toByte c.toNat)

/-- The four bytes `binary.LittleEndian` gives a `uint32`. -/
def leBytes32 (v : Nat) : List Byte :=
  [toByte v, toByte (v / 256), toByte (v / 65536), toByte (v / 16777216)]

/-- The two bytes `binary.LittleEndian` gives a `uint16`. -/
def leBytes16 (v : Nat) : List Byte := [toByte v, toByte (v / 256)]

/-- The bytes `b[off : off+n]`. -/
def slice (b : List Byte) (off n : Nat) : List Byte := (b.drop off).take n

/-- Little-endian value of a byte string (`binary.LittleEndian.Uint16`, `Uint32`). -/
def leValue : List Byte → Nat
  | [] => 0
  | x :: rest => x.val + 256 * leValue rest

/-! ## `bytes.Buffer` as used by `createWavInMemory` -/

/-- A `bytes.Buffer`: the bytes written so far. -/
structure Buffer where
  buf : List Byte
  deriving Repr, DecidableEq

/-- The buffer `new(bytes.Buffer)`. -/
def Buffer.new : Buffer := ⟨[]⟩

/-- The call `buf.WriteString(s)`. -/
def Buffer.WriteString (b : Buffer) (s : String) : Buffer := ⟨b.buf ++ asciiBytes s⟩

/-- The call `binary.Write(buf, binary.LittleEndian, uint32(v))`. -/
def Buffer.writeUint32 (b : Buffer) (v : Nat) : Buffer := ⟨b.buf ++ leBytes32 v⟩

/-- The call `binary.Write(buf, binary.LittleEndian, uint16(v))`. -/
def Buffer.writeUint16 (b : Buffer) (v : Nat) : Buffer := ⟨b.buf ++ leBytes16 v⟩

/-- The call `buf.Write(p)`: appends `p`, returns `len(p)` and a nil error. -/
def Buffer.Write (b : Buffer) (p : List Byte) : Buffer × Int × Option String :=
  (⟨b.buf ++ p⟩, (p.length : Int), none)

/-- The call `buf.Bytes()`. -/
def Buffer.Bytes (b : Buffer) : List Byte := b.buf

/-- The call `binary.LittleEndian.PutUint32(b[off:], v)`: overwrites four bytes in
place, and panics when fewer than four bytes follow `off`. -/
def PutUint32 (b : List Byte) (off : Nat) (v : Nat) : Option (List Byte) :=
  if off + 4 ≤ b.length then some (b.take off ++ leBytes32 v ++ b.drop (off + 4)) else none

/-! ## `audio/stt.go` -/

/-- The function `createWavInMemory` of `audio/stt.go`; the result stands for the
`bytes.Reader` over `finalBytes`. -/
def createWavInMemory (pcmData : List Byte) (sampleRate channels bitDepth : Int) :
    Outcome (List Byte) :=
  let buf := Buffer.new
  let buf := buf.WriteString "RIFF"
  let buf := buf.writeUint32 (uint32 0)
  let buf := buf.WriteString "WAVE"
  let buf := buf.WriteString "fmt "
  let buf := buf.writeUint32 (uint32 16)
  let buf := buf.writeUint16 (uint16 1)
  let buf := buf.writeUint16 (uint16 channels)
  let buf := buf.writeUint32 (uint32 sampleRate)
  let byteRate := mulInt (mulInt sampleRate channels) (divInt bitDepth 8)
  let buf := buf.writeUint32 (uint32 byteRate)
  let blockAlign := mulInt channels (divInt bitDepth 8)
  let buf := buf.writeUint16 (uint16 blockAlign)
  let buf := buf.writeUint16 (uint16 bitDepth)
  let buf := buf.WriteString "data"
  let buf := buf.writeUint32 (uint32 0)
  match buf.Write pcmData with
  | (_, _, some err) => Outcome.error err
  | (buf, pcmLen, none) =>
    let finalBytes := buf.Bytes
    match PutUint32 finalBytes 4 (uint32 ((finalBytes.length : Int) - 8)) with
    | none => Outcome.panic "index out of range"
    | some finalBytes =>
      match PutUint32 finalBytes 40 (uint32 pcmLen) with
      | none => Outcome.panic "index out of range"
      | some finalBytes => Outcome.ok finalBytes

/-- The 44 header bytes `createWavInMemory` produces for a payload of `n` bytes. -/
def wavHeader (n : Nat) (sampleRate channels bitDepth : Int) : List Byte :=
  asciiBytes "RIFF" ++ leBytes32 (uint32 ((n : Int) + 36)) ++ asciiBytes "WAVE"
    ++ asciiBytes "fmt " ++ leBytes32 16 ++ leBytes16 1 ++ leBytes16 (uint16 channels)
    ++ leBytes32 (uint32 sampleRate)
    ++ leBytes32 (uint32 (mulInt (mulInt sampleRate channels) (divInt bitDepth 8)))
    ++ leBytes16 (uint16 (mulInt channels (divInt bitDepth 8)))
    ++ leBytes16 (uint16 bitDepth) ++ asciiBytes "data" ++ leBytes32 (uint32 (n : Int))


/-! ## Go channels -/

/-- A Go channel carrying values of type `α`: the values sent and not yet
received, oldest first, and whether `close` has been called on it. -/
structure Chan (α : Type) where
  queue : List α
  isClosed : Bool
  deriving Repr, DecidableEq

/-- What a receive guarded by a timeout observes. -/
inductive Recv (α : Type) where
  | data (d : α)
  | closed
  | timeout
  deriving Repr, DecidableEq

/-- The channel `make(chan T)` before any send. -/
def Chan.make {α : Type} : Chan α := { queue := [], isClosed := false }

/-- The statement `ch <- d`; sending on a closed channel panics. -/
def Chan.send {α : Type} (c : Chan α) (d : α) : Outcome (Chan α) :=
  if c.isClosed then Outcome.panic "send on closed channel"
  else Outcome.ok { c with queue := c.queue ++ [d] }

/-- The statement `close(ch)`; closing a closed channel panics. -/
def Chan.close {α : Type} (c : Chan α) : Outcome (Chan α) :=
  if c.isClosed then Outcome.panic "close of closed channel"
  else Outcome.ok { c with isClosed := true }

/-- The `select` of `audioChanReader.Read`: `data, ok := <-ch` against
`time.After`. A queued value is received; a closed and drained channel gives
`ok == false`; otherwise the timeout fires. -/
def Chan.recvOrTimeout {α : Type} (c : Chan α) : Recv α × Chan α :=
  match c.queue with
  | d :: rest => (Recv.data d, { c with queue := rest })
  | [] => if c.isClosed then (Recv.closed, c) else (Recv.timeout, c)

/-! ## `audio/player.go` -/

/-- The error values `Read` returns besides nil. -/
inductive IOError where
  | EOF
  deriving Repr, DecidableEq

/-- The struct `audioChanReader`; `pcmChan` is the state of the channel it points
to. The mutex `mu` makes each method one atomic step. -/
structure audioChanReader where
  pcmChan : Chan (List Byte)
  buffer : List Byte
  closed : Bool
  reading : Bool
  deriving Repr, DecidableEq

/-- The function `newAudioChanReader`. -/
def newAudioChanReader (pcmChan : Chan (List Byte)) : audioChanReader :=
  { pcmChan := pcmChan, buffer := [], closed := false, reading := false }

/-- Go builtin `copy(dst, src)`: the new contents of `dst` and the number of
bytes copied. -/
def copy (dst src : List Byte) : List Byte × Nat :=
  (src.take (min dst.length src.length) ++ dst.drop (min dst.length src.length),
    min dst.length src.length)

/-- What one call `acr.Read(p)` leaves behind: the reader, the contents of `p`,
and the results `n`, `err`. -/
structure ReadResult where
  acr : audioChanReader
  p : List Byte
  n : Nat
  err : Option IOError
  deriving Repr, DecidableEq

/-- The bytes a `Read` handed to its caller: `p[:n]`. -/
def ReadResult.bytes (r : ReadResult) : List Byte := r.p.take r.n

/-- The method `audioChanReader.Read`. -/
def audioChanReader.Read (acr : audioChanReader) (p : List Byte) : ReadResult :=
  if acr.buffer.length > 0 then
    let c := copy p acr.buffer
    let acr := { acr with buffer := acr.buffer.drop c.2 }
    if acr.buffer.length = 0 ∧ acr.closed = true then
      { acr := acr, p := c.1, n := c.2, err := some IOError.EOF }
    else
      { acr := acr, p := c.1, n := c.2, err := none }
  else if acr.closed = true then
    { acr := acr, p := p, n := 0, err := some IOError.EOF }
  else
    match acr.pcmChan.recvOrTimeout with
    | (Recv.closed, ch) =>
      { acr := { acr with pcmChan := ch, closed := true }, p := p, n := 0, err := some IOError.EOF }
    | (Recv.data data, ch) =>
      let acr := { acr with pcmChan := ch }
      if data.length = 0 ∧ acr.closed = true then
        { acr := acr, p := p, n := 0, err := some IOError.EOF }
      else if data.length = 0 then
        { acr := acr, p := p, n := 0, err := none }
      else
        let c := copy p data
        let acr := if c.2 < data.length then { acr with buffer := acr.buffer ++ data.drop c.2 } else acr
        { acr := acr, p := c.1, n := c.2, err := none }
    | (Recv.timeout, ch) =>
      { acr := { acr with pcmChan := ch }, p := p, n := 0, err := none }

/-- The method `audioChanReader.SignalClose`. -/
def audioChanReader.SignalClose (acr : audioChanReader) : audioChanReader :=
  { acr with closed := true }

/-- The struct `AudioPlayer`. `audioPCMChan` and `chanReader.pcmChan` are one
channel (`NewAudioPlayer` stores the same channel in both), so its state is kept
once, in the reader. The oto context, the oto player and the wait group are
handles of the audio library and are not part of the state. -/
structure AudioPlayer where
  chanReader : audioChanReader
  isPlaying : Bool
  deriving Repr, DecidableEq

/-- The field `ap.audioPCMChan`. -/
def AudioPlayer.audioPCMChan (ap : AudioPlayer) : Chan (List Byte) := ap.chanReader.pcmChan

/-- The state `NewAudioPlayer` builds around the channel it is given. -/
def NewAudioPlayer (audioPCMInChan : Chan (List Byte)) : AudioPlayer :=
  { chanReader := newAudioChanReader audioPCMInChan, isPlaying := false }

/-- The method `AudioPlayer.Interrupt`: `ap.chanReader.buffer = nil` under both locks. -/
def AudioPlayer.Interrupt (ap : AudioPlayer) : AudioPlayer :=
  { ap with chanReader := { ap.chanReader with buffer := [] } }

/-- The method `AudioPlayer.Close`, up to and including `close(ap.audioPCMChan)`:
`SignalClose` on the reader, then the channel is closed. The steps after it wait
for the playback loop and close the oto player, and touch no field of the state. -/
def AudioPlayer.Close (ap : AudioPlayer) : Outcome AudioPlayer :=
  let acr := ap.chanReader.SignalClose
  match acr.pcmChan.close with
  | Outcome.ok ch => Outcome.ok { ap with chanReader := { acr with pcmChan := ch } }
  | Outcome.error msg => Outcome.error msg
  | Outcome.panic msg => Outcome.panic msg

/-- Consecutive calls of `Read`, one per request buffer, with nothing else
touching the reader in between: the result of each call, in order. -/
def readAll : audioChanReader → List (List Byte) → List ReadResult
  | _, [] => []
  | acr, p :: ps => acr.Read p :: readAll (acr.Read p).acr ps

/-- The reader after the consecutive calls of `readAll`. -/
def readAllFinal : audioChanReader → List (List Byte) → audioChanReader
  | acr, [] => acr
  | acr, p :: ps => readAllFinal (acr.Read p).acr ps

/-- One step of a producer and consumer sharing the reader: a chunk is sent
on the channel, or `Read` is called with a request buffer. -/
inductive Op where
  | send (d : List Byte)
  | read (p : List Byte)
  deriving Repr, DecidableEq

/-- Runs the steps in order. Gives the final reader and the bytes the reads
returned, in order of delivery; `none` when a send panics. -/
def runOps : audioChanReader → List Op → Option (audioChanReader × List Byte)
  | acr, [] => some (acr, [])
  | acr, Op.send d :: ops =>
    match acr.pcmChan.send d with
    | Outcome.ok ch => runOps { acr with pcmChan := ch } ops
    | _ => none
  | acr, Op.read p :: ops =>
    match runOps (acr.Read p).acr ops with
    | some (final, out) => some (final, (acr.Read p).bytes ++ out)
    | none => none

/-- The chunks the send steps carry, in order. -/
def sentChunks : List Op → List (List Byte)
  | [] => []
  | Op.send d :: ops => d :: sentChunks ops
  | Op.read _ :: ops => sentChunks ops

/-! ## `audio/tts.go` -/

/-- The method `TTSProcessor.Process` as it acts on `tp.outputChan`, the channel
the player reads from. `speech` is what `CreateSpeech` followed by `io.ReadAll`
delivers: the PCM bytes, or `none` when either fails. An empty text and a failed
request return without touching the channel; otherwise the bytes are sent with
`tp.outputChan <- audioBytes`. -/
def TTSProcessor.Process (outputChan : Chan (List Byte)) (text : String)
    (speech : Option (List Byte)) : Outcome (Chan (List Byte)) :=
  if text = "" then Outcome.ok outputChan
  else
    match speech with
    | none => Outcome.ok outputChan
    | some audioBytes => outputChan.send audioBytes

/-! ## `audio/capture.go` -/

/-- A captured frame: a Go `[]int16`. -/
abbrev Frame := List Int

/-- The struct `AudioCapturer`, without the stream handle. `outputChan` is the
queue handed to `NewAudioCapturer`; what `Start` does to the stream and to the
queue is recorded as actions. -/
structure AudioCapturer where
  sampleRate : Int
  channels : Int
  frameDurationMs : Int
  outputChan : Chan Frame
  deriving Repr, DecidableEq

/-- The function `NewAudioCapturer`: the warnings it logs, and the capturer it
returns together with a nil error. -/
def NewAudioCapturer (sampleRate channels frameDurationMs : Int) (outputChan : Chan Frame) :
    List String × Outcome AudioCapturer :=
  let warnChannels :=
    if channels ≠ 1 then ["AVERTISSEMENT - Le VAD attend de l audio MONO"] else []
  let warnDuration :=
    if frameDurationMs ≠ 10 ∧ frameDurationMs ≠ 20 ∧ frameDurationMs ≠ 30 then
      ["AVERTISSEMENT - VADFrameDurationMs n est pas une valeur VAD standard (10, 20, 30)"]
    else []
  (warnChannels ++ warnDuration,
    Outcome.ok { sampleRate := sampleRate, channels := channels,
                 frameDurationMs := frameDurationMs, outputChan := outputChan })

/-- Which case the `select` of the capture callback took. -/
inductive SendOutcome where
  | sent
  | timedOut
  | cancelled
  deriving Repr, DecidableEq

/-- One invocation of the capture callback by PortAudio: its input buffer and
the case its `select` took. -/
structure Callback where
  input : Frame
  outcome : SendOutcome
  deriving Repr, DecidableEq

/-- What the surroundings decide during one run of `Start`: whether opening,
starting, stopping and closing the stream return an error, and the callbacks
PortAudio makes while the stream is active (after `stream.Start` succeeded and
before `stream.Stop` returns). -/
structure CaptureEnv where
  openErr : Bool
  startErr : Bool
  stopErr : Bool
  closeErr : Bool
  callbacks : List Callback
  deriving Repr, DecidableEq

/-- The effects of `Start` seen from outside. -/
inductive CaptureAction where
  | openStream (channels sampleRate : Int)
  | startStream
  | stopStream
  | closeStream
  | queueSend (frame : Frame)
  | queueClose
  | log (msg : String)
  deriving Repr, DecidableEq

/-- Whether the action is a send on or the close of the output queue. -/
def CaptureAction.onQueue : CaptureAction → Bool
  | CaptureAction.queueSend _ => true
  | CaptureAction.queueClose => true
  | _ => false

/-- The body of the callback passed to `OpenDefaultStream`: the frame is copied
and offered to the queue. -/
def callbackActions (cb : Callback) : List CaptureAction :=
  match cb.outcome with
  | SendOutcome.sent => [CaptureAction.queueSend cb.input]
  | SendOutcome.timedOut => [CaptureAction.log "Timeout envoi frame audio vers VAD channel"]
  | SendOutcome.cancelled => []

/-- The method `AudioCapturer.Start`, for a context that is cancelled at some
point: the actions in the order the code performs them. The `framesPerBuffer`
argument of the stream, a floating-point product, is left out. -/
def AudioCapturer.Start (ac : AudioCapturer) (env : CaptureEnv) : List CaptureAction :=
  CaptureAction.openStream ac.channels ac.sampleRate ::
  if env.openErr then
    [CaptureAction.log "Erreur ouverture flux PortAudio", CaptureAction.queueClose]
  else
    CaptureAction.startStream ::
    if env.startErr then
      [CaptureAction.log "Erreur demarrage flux PortAudio", CaptureAction.closeStream,
        CaptureAction.queueClose]
    else
      CaptureAction.log "Capture audio demarree" ::
      (env.callbacks.map callbackActions).flatten ++
      [CaptureAction.log "Arret capture audio", CaptureAction.stopStream] ++
      (if env.stopErr then [CaptureAction.log "Erreur arret flux PortAudio"] else []) ++
      [CaptureAction.closeStream] ++
      (if env.closeErr then [CaptureAction.log "Erreur fermeture flux PortAudio"] else []) ++
      [CaptureAction.queueClose, CaptureAction.log "Capture audio terminee et canal de sortie ferme"]

/-- The number of bytes the first `i` requests of a run ask for. -/
def requested (ps : List (List Byte)) (i : Nat) : Nat := ((ps.take i).map List.length).sum

/-! ## `audio/vad.go` -/

/-- The struct `VAD`: it has no field. -/
structure VAD where
  deriving Repr, DecidableEq

/-- The function `NewVAD`: prints a warning and returns a `VAD` and a nil error,
whatever the aggressiveness. -/
def NewVAD (_aggressiveness : Int) : Outcome VAD := Outcome.ok {}

/-- The method `VAD.Process`: the pair `(true, nil)`. -/
def VAD.Process (_v : VAD) (_pcm : Frame) : Bool × Option String := (true, none)

/-! ## `main.go` -/

/-- Go `s & 0xFF` on an `int16`: the low 8 bits of the two's complement. -/
def andFF (s : Int) : Int := s % 256

/-- Go `s >> 8` on an `int16`: the arithmetic shift, rounding down. -/
def shr8 (s : Int) : Int := s / 256

/-- Go `byte(x)` for an `int16` `x`: the low 8 bits of the two's complement. -/
def byteOfInt (x : Int) : Byte := toByte (x % 256).toNat

/-- The loop `for i, s := range pcm` of `pcm16MonoToBytes`, from index `i` on. -/
def pcm16Loop : Nat → List Int → List Byte → List Byte
  | _, [], buf => buf
  | i, s :: rest, buf =>
    pcm16Loop (i + 1) rest
      ((buf.set (i * 2) (byteOfInt (andFF s))).set (i * 2 + 1) (byteOfInt (andFF (shr8 s))))

/-- The function `pcm16MonoToBytes` of `main.go`; a sample is an `Int` in the range
of `int16`. -/
def pcm16MonoToBytes (pcm : List Int) : List Byte :=
  pcm16Loop 0 pcm (List.replicate (pcm.length * 2) 0)

/-- The two bytes of one sample, low byte first. -/
def sampleBytes (s : Int) : List Byte := [byteOfInt (andFF s), byteOfInt (andFF (shr8 s))]

/-- The signed 16-bit value of a low and a high byte (little-endian `int16`). -/
def int16LE (lo hi : Byte) : Int :=
  if lo.val + 256 * hi.val < 32768 then (lo.val + 256 * hi.val : Int)
  else (lo.val + 256 * hi.val : Int) - 65536

/-- Decoding of consecutive byte pairs as little-endian `int16`. -/
def decodePcm16 : List Byte → List Int
  | lo :: hi :: rest => int16LE lo hi :: decodePcm16 rest
  | _ => []

/-! ## `llm/openai_llm.go` -/

/-- The struct `openai.FunctionCall`. -/
structure FunctionCall where
  Name : String
  Arguments : String
  deriving Repr, DecidableEq

/-- The struct `openai.ToolCall`, with the fields the program reads; `Type_` is its
field `Type`. -/
structure ToolCall where
  ID : String
  Type_ : String
  Function : FunctionCall
  deriving Repr, DecidableEq

/-- The message of a choice of `openai.ChatCompletionResponse`. -/
structure ChatCompletionMessage where
  Content : String
  ToolCalls : List ToolCall
  deriving Repr, DecidableEq

/-- The struct `openai.ChatCompletionChoice`. -/
structure ChatCompletionChoice where
  Message : ChatCompletionMessage
  deriving Repr, DecidableEq

/-- The struct `openai.ChatCompletionResponse`. -/
structure ChatCompletionResponse where
  Choices : List ChatCompletionChoice
  deriving Repr, DecidableEq

/-- The struct `LLMResponse`; a nil `Error` is `none`, a nil slice is `[]`. -/
structure LLMResponse where
  Content : String
  ToolCalls : List ToolCall
  Error : Option String
  deriving Repr, DecidableEq

/-- The condition of line 73 of `llm/openai_llm.go`,
`len(resp.Choices) == 0 || resp.Choices[0].Message.Content == "" && len(resp.Choices[0].Message.ToolCalls) == 0`,
evaluated left to right with short circuit; indexing an empty slice panics. -/
def emptyReply (resp : ChatCompletionResponse) : Outcome Bool :=
  if resp.Choices.length = 0 then Outcome.ok true
  else
    match resp.Choices[0]? with
    | none => Outcome.panic "index out of range"
    | some c =>
      Outcome.ok (decide (c.Message.Content = "") && decide (c.Message.ToolCalls.length = 0))

/-- The method `LLMProcessor.GetResponse`: the values it sends on `lp.outputChan`,
in order. `api` is what `CreateChatCompletion` returns: an error or a response. -/
def LLMProcessor.GetResponse (api : Except String ChatCompletionResponse) :
    Outcome (List LLMResponse) :=
  match api with
  | Except.error err =>
    Outcome.ok [{ Content := "", ToolCalls := [], Error := some ("erreur ChatCompletion: " ++ err) }]
  | Except.ok resp =>
    match emptyReply resp with
    | Outcome.panic msg => Outcome.panic msg
    | Outcome.error msg => Outcome.error msg
    | Outcome.ok true =>
      Outcome.ok [{ Content := "", ToolCalls := [], Error := some "réponse LLM vide" }]
    | Outcome.ok false =>
      match resp.Choices[0]? with
      | none => Outcome.panic "index out of range"
      | some choice =>
        if choice.Message.ToolCalls.length > 0 then
          Outcome.ok [{ Content := "", ToolCalls := choice.Message.ToolCalls, Error := none }]
        else
          Outcome.ok [{ Content := choice.Message.Content, ToolCalls := [], Error := none }]

/-- A tool call used in examples: a call of the weather function. -/
def exampleCall : ToolCall :=
  { ID := "call-1", Type_ := "function",
    Function := { Name := "getCurrentWeather", Arguments := "" } }

/-! ## `actions/router.go` -/

/-- The constant `openai.ToolTypeFunction`. -/
def ToolTypeFunction : String := "function"

/-- The struct `ToolResult`. -/
structure ToolResult where
  ToolCallID : String
  Content : String
  deriving Repr, DecidableEq

/-- The `map[string]interface{}` that the `switch` of `ProcessToolCalls` builds for
a function name and a call ID, as its key and value pairs. -/
def responseData (name id : String) : List (String × String) :=
  if name = "getCurrentWeather" then
    [("location", "Paris"), ("temperature", "15"), ("unit", "celsius"),
     ("description", "Partiellement nuageux")]
  else if name = "createDiscordChannel" then
    [("status", "success"), ("channelName", "simulated-channel-" ++ id),
     ("message", "Canal simulé créé avec succès.")]
  else
    [("status", "error"),
     ("message", "Outil '" ++ name ++ "' non reconnu ou simulation non implémentée.")]

/-- Lexicographic order on lists of code points. -/
def natListLE : List Nat → List Nat → Bool
  | [], _ => true
  | _ :: _, [] => false
  | x :: xs, y :: ys => if x < y then true else if y < x then false else natListLE xs ys

/-- The order in which `encoding/json` sorts the keys of a map: strings compared
byte by byte, which for UTF-8 text is the order of their code points. -/
def keyLE (a b : String) : Bool :=
  natListLE (a.toList.map Char.toNat) (b.toList.map Char.toNat)

/-- The call `json.Marshal(responseData)` for a map from strings to strings: a JSON
object with the keys in sorted order, and a nil error. `encodeString` is the JSON
string literal `encoding/json` writes for a Go string. -/
def jsonMarshal (encodeString : String → String) (data : List (String × String)) :
    String × Option String :=
  ("\x7b" ++ ",".intercalate
      ((data.insertionSort (fun a b => keyLE a.1 b.1 = true)).map
        (fun kv => encodeString kv.1 ++ ":" ++ encodeString kv.2)) ++ "\x7d",
    none)

/-- A string encoder for examples: the text between double quotes, which is what
`encoding/json` writes for a string that needs no escaping. -/
def quoteString (s : String) : String := "\"" ++ s ++ "\""

/-- The body of the loop of `ProcessToolCalls` for one call: the results so far
and the results after it. -/
def processToolCall (encodeString : String → String) (results : List ToolResult)
    (call : ToolCall) : List ToolResult :=
  if call.Type_ ≠ ToolTypeFunction then results
  else
    match jsonMarshal encodeString (responseData call.Function.Name call.ID) with
    | (_, some _) =>
      results ++ [{ ToolCallID := call.ID,
                    Content := "\x7b\"error\": \"failed to serialize result\"\x7d" }]
    | (jsonResult, none) =>
      results ++ [{ ToolCallID := call.ID, Content := jsonResult }]

/-- The method `ActionRouter.ProcessToolCalls`. -/
def ActionRouter.ProcessToolCalls (encodeString : String → String) (toolCalls : List ToolCall) :
    List ToolResult :=
  if toolCalls.length = 0 then []
  else toolCalls.foldl (processToolCall encodeString) []

/-! ## Speech Segmentation Gate (spec section 4.3) -/

/-- Modelled from the spec: the two states of the Speech Segmentation Gate of
section 4.3. The repository holds no implementation of the Gate: the frame loop of
`main.go` is commented out and calls a `VADProcessor` that no source file defines;
only the thresholds `VADSpeechFrames` and `VADSilenceFrames` exist in
`config/config.go`. -/
inductive GateMode where
  | Waiting
  | Recording
  deriving Repr, DecidableEq

/-- Modelled from the spec: the state of the Gate, missing from the sources. Each
of the two states carries its consecutive-frame counter; `preRoll` holds the voiced
frames counted so far while waiting and `utterance` is the Utterance buffer. -/
structure Gate where
  mode : GateMode
  speechCount : Nat
  silenceCount : Nat
  preRoll : List Frame
  utterance : List Frame
  deriving Repr, DecidableEq

/-- Modelled from the spec: the Gate at the start of a session, missing from the
sources: waiting, both counters zero, nothing buffered. -/
def Gate.init : Gate :=
  { mode := GateMode.Waiting, speechCount := 0, silenceCount := 0, preRoll := [],
    utterance := [] }

/-- Modelled from the spec: the Gate's handling of one frame (section 4.3), missing
from the sources; the result is the new state and the Utterance emitted, if any.
Waiting: a voiced frame increments the speech counter, a silent frame resets it;
when the counter reaches `speechFrames` the Gate starts recording with the frames
that triggered the transition as the start of the Utterance buffer. Recording:
every frame is appended to the Utterance; a silent frame increments the silence
counter, a voiced frame resets it; when the counter reaches `silenceFrames` the
Utterance is emitted and the Gate waits again with both counters and the buffer
cleared. `classify` is the voice-activity predicate. -/
def Gate.step (speechFrames silenceFrames : Nat) (classify : Frame → Bool) (g : Gate)
    (f : Frame) : Gate × Option (List Frame) :=
  match g.mode with
  | GateMode.Waiting =>
    if classify f = true then
      if speechFrames ≤ g.speechCount + 1 then
        ({ g with mode := GateMode.Recording, speechCount := g.speechCount + 1, preRoll := [],
                  utterance := g.preRoll ++ [f] }, none)
      else
        ({ g with speechCount := g.speechCount + 1, preRoll := g.preRoll ++ [f] }, none)
    else
      ({ g with speechCount := 0, preRoll := [] }, none)
  | GateMode.Recording =>
    if classify f = true then
      ({ g with utterance := g.utterance ++ [f], silenceCount := 0 }, none)
    else if silenceFrames ≤ g.silenceCount + 1 then
      ({ g with mode := GateMode.Waiting, speechCount := 0, silenceCount := 0, utterance := [] },
        some (g.utterance ++ [f]))
    else
      ({ g with utterance := g.utterance ++ [f], silenceCount := g.silenceCount + 1 }, none)

/-- Modelled from the spec: the Gate fed a sequence of frames, missing from the
sources: the final state and the Utterances emitted, in order. -/
def Gate.run (speechFrames silenceFrames : Nat) (classify : Frame → Bool) :
    Gate → List Frame → Gate × List (List Frame)
  | g, [] => (g, [])
  | g, f :: fs =>
    match Gate.step speechFrames silenceFrames classify g f with
    | (g1, none) => Gate.run speechFrames silenceFrames classify g1 fs
    | (g1, some u) =>
      ((Gate.run speechFrames silenceFrames classify g1 fs).1,
        u :: (Gate.run speechFrames silenceFrames classify g1 fs).2)

/-- Modelled from the spec: the state of the Gate after each frame of a sequence,
in order. -/
def Gate.modes (speechFrames silenceFrames : Nat) (classify : Frame → Bool) :
    Gate → List Frame → List GateMode
  | _, [] => []
  | g, f :: fs =>
    (Gate.step speechFrames silenceFrames classify g f).1.mode ::
      Gate.modes speechFrames silenceFrames classify
        (Gate.step speechFrames silenceFrames classify g f).1 fs

/-- Whether the first `k` frames of the sequence exist and all satisfy `pred`. -/
def startsWithRun (pred : Frame → Bool) : Nat → List Frame → Bool
  | 0, _ => true
  | _ + 1, [] => false
  | k + 1, f :: fs => pred f && startsWithRun pred k fs

/-- Whether the sequence has `n` consecutive frames that all satisfy `pred`. -/
def hasRun (pred : Frame → Bool) (n : Nat) : List Frame → Bool
  | [] => startsWithRun pred n []
  | f :: fs => startsWithRun pred n (f :: fs) || hasRun pred n fs

/-- A voiced frame and a silent frame for examples, with the classifier that
tells them apart. -/
def voicedFrame : Frame := [1000]

/-- A silent frame for examples. -/
def silentFrame : Frame := [0]

/-- The classifier of the examples: a frame is voiced when it is not all zero. -/
def exampleClassify (f : Frame) : Bool := f.any (fun s => decide (s ≠ 0))

/-! ## Lemmas on the byte encodings -/

theorem asciiBytes_RIFF : asciiBytes "RIFF" = [82, 73, 70, 70] := by decide

theorem asciiBytes_WAVE : asciiBytes "WAVE" = [87, 65, 86, 69] := by decide

theorem asciiBytes_fmt : asciiBytes "fmt " = [102, 109, 116, 32] := by decide

theorem asciiBytes_data : asciiBytes "data" = [100, 97, 116, 97] := by decide

theorem leValue_leBytes32 (v : Nat) : leValue (leBytes32 v) = v % 4294967296 := by
  simp only [leBytes32, leValue, toByte]
  omega

theorem leValue_leBytes16 (v : Nat) : leValue (leBytes16 v) = v % 65536 := by
  simp only [leBytes16, leValue, toByte]
  omega

theorem uint32_cast (x : Int) : ((uint32 x : Nat) : Int) = x % 4294967296 := by
  unfold uint32
  omega

theorem uint16_cast (x : Int) : ((uint16 x : Nat) : Int) = x % 65536 := by
  unfold uint16
  omega

theorem uint32_natCast (n : Nat) : uint32 (n : Int) = n % 4294967296 := by
  unfold uint32
  omega

theorem uint32_lt (x : Int) : uint32 x < 4294967296 := by
  unfold uint32
  omega

theorem uint16_lt (x : Int) : uint16 x < 65536 := by
  unfold uint16
  omega

theorem wrapInt_emod32 (x : Int) : wrapInt x % 4294967296 = x % 4294967296 := by
  unfold wrapInt
  omega

theorem wrapInt_emod16 (x : Int) : wrapInt x % 65536 = x % 65536 := by
  unfold wrapInt
  omega

theorem byteRate_emod (a b c : Int) :
    mulInt (mulInt a b) (divInt c 8) % 4294967296 = (a * b * Int.tdiv c 8) % 4294967296 := by
  unfold mulInt divInt
  rw [wrapInt_emod32, Int.mul_emod, wrapInt_emod32, wrapInt_emod32, ← Int.mul_emod]

theorem blockAlign_emod (b c : Int) :
    mulInt b (divInt c 8) % 65536 = (b * Int.tdiv c 8) % 65536 := by
  unfold mulInt divInt
  rw [wrapInt_emod16, Int.mul_emod, wrapInt_emod16, ← Int.mul_emod]

/-! ## `createWavInMemory` -/

/-- The output of `createWavInMemory` in closed form: the header, then the payload. -/
theorem createWavInMemory_eq (pcm : List Byte) (sr ch bd : Int) :
    createWavInMemory pcm sr ch bd = Outcome.ok (wavHeader pcm.length sr ch bd ++ pcm) := by
  have u16 : uint32 16 = 16 := by decide
  have u1 : uint16 1 = 1 := by decide
  simp only [createWavInMemory, wavHeader, Buffer.new, Buffer.WriteString, Buffer.writeUint32,
    Buffer.writeUint16, Buffer.Write, Buffer.Bytes, asciiBytes_RIFF, asciiBytes_WAVE,
    asciiBytes_fmt, asciiBytes_data, leBytes32, leBytes16, u16, u1,
    List.nil_append, List.cons_append]
  generalize hL : ((List.length _ : Nat) : Int) - 8 = L
  have hL2 : L = (pcm.length : Int) + 36 := by
    rw [← hL]; simp only [List.length_cons]; omega
  subst hL2
  simp [PutUint32, leBytes32]

theorem wavHeader_length (n : Nat) (sr ch bd : Int) : (wavHeader n sr ch bd).length = 44 := by
  simp [wavHeader, asciiBytes_RIFF, asciiBytes_WAVE, asciiBytes_fmt, asciiBytes_data,
    leBytes32, leBytes16]

/-- The fields of the header, by offset. -/
theorem wavHeader_fields (n : Nat) (sr ch bd : Int) (pcm : List Byte) :
    slice (wavHeader n sr ch bd ++ pcm) 0 4 = asciiBytes "RIFF" ∧
    slice (wavHeader n sr ch bd ++ pcm) 4 4 = leBytes32 (uint32 ((n : Int) + 36)) ∧
    slice (wavHeader n sr ch bd ++ pcm) 8 4 = asciiBytes "WAVE" ∧
    slice (wavHeader n sr ch bd ++ pcm) 12 4 = asciiBytes "fmt " ∧
    slice (wavHeader n sr ch bd ++ pcm) 16 4 = leBytes32 16 ∧
    slice (wavHeader n sr ch bd ++ pcm) 20 2 = leBytes16 1 ∧
    slice (wavHeader n sr ch bd ++ pcm) 22 2 = leBytes16 (uint16 ch) ∧
    slice (wavHeader n sr ch bd ++ pcm) 24 4 = leBytes32 (uint32 sr) ∧
    slice (wavHeader n sr ch bd ++ pcm) 28 4
      = leBytes32 (uint32 (mulInt (mulInt sr ch) (divInt bd 8))) ∧
    slice (wavHeader n sr ch bd ++ pcm) 32 2 = leBytes16 (uint16 (mulInt ch (divInt bd 8))) ∧
    slice (wavHeader n sr ch bd ++ pcm) 34 2 = leBytes16 (uint16 bd) ∧
    slice (wavHeader n sr ch bd ++ pcm) 36 4 = asciiBytes "data" ∧
    slice (wavHeader n sr ch bd ++ pcm) 40 4 = leBytes32 (uint32 (n : Int)) := by
  simp [slice, wavHeader, asciiBytes_RIFF, asciiBytes_WAVE, asciiBytes_fmt, asciiBytes_data,
    leBytes32, leBytes16]

theorem leBytes32_mod (v : Nat) : leBytes32 (v % 4294967296) = leBytes32 v := by
  simp only [leBytes32, toByte, List.cons.injEq, Fin.mk.injEq, and_true]
  omega

theorem leBytes16_mod (v : Nat) : leBytes16 (v % 65536) = leBytes16 v := by
  simp only [leBytes16, toByte, List.cons.injEq, Fin.mk.injEq, and_true]
  omega

/-- The size field at offset 4 for a payload of given length. -/
theorem createWav_riffSize (pcm : List Byte) (sr ch bd : Int) :
    ∃ out, createWavInMemory pcm sr ch bd = Outcome.ok out ∧
      slice out 4 4 = leBytes32 (pcm.length + 36) ∧
      slice out 40 4 = leBytes32 pcm.length := by
  refine ⟨_, createWavInMemory_eq pcm sr ch bd, ?_, ?_⟩
  · rw [(wavHeader_fields pcm.length sr ch bd pcm).2.1]
    have h : uint32 ((pcm.length : Int) + 36) = (pcm.length + 36) % 4294967296 := by
      unfold uint32
      omega
    rw [h, leBytes32_mod]
  · rw [(wavHeader_fields pcm.length sr ch bd pcm).2.2.2.2.2.2.2.2.2.2.2.2]
    rw [uint32_natCast, leBytes32_mod]

/-- C1 (amended): for every PCM payload of N bytes and every sampleRate, channels
and bitDepth, `createWavInMemory` returns bytes whose four bytes at offset 4 are
the little-endian low 32 bits of N + 36 and whose four bytes at offset 40 are
the little-endian low 32 bits of N, so the two fields read (N + 36) mod 2^32 and
N mod 2^32; when N + 36 < 2^32 they read exactly N + 36 and N. -/
theorem createWav_size_fields (pcmData : List Byte) (sampleRate channels bitDepth : Int) :
    ∃ out, createWavInMemory pcmData sampleRate channels bitDepth = Outcome.ok out ∧
      slice out 4 4 = leBytes32 (pcmData.length + 36) ∧
      slice out 40 4 = leBytes32 pcmData.length ∧
      leValue (slice out 4 4) = (pcmData.length + 36) % 4294967296 ∧
      leValue (slice out 40 4) = pcmData.length % 4294967296 ∧
      (pcmData.length + 36 < 4294967296 →
        leValue (slice out 4 4) = pcmData.length + 36 ∧
        leValue (slice out 40 4) = pcmData.length) := by
  obtain ⟨out, hout, h4, h40⟩ := createWav_riffSize pcmData sampleRate channels bitDepth
  refine ⟨out, hout, h4, h40, ?_, ?_, ?_⟩
  · rw [h4, leValue_leBytes32]
  · rw [h40, leValue_leBytes32]
  · intro hlt
    rw [h4, h40, leValue_leBytes32, leValue_leBytes32]
    constructor <;> omega

/-- Witness for C1: a three-byte payload has size fields 39 and 3. -/
theorem createWav_size_fields_witness :
    ∃ out, createWavInMemory [1, 2, 3] 16000 1 16 = Outcome.ok out ∧
      leValue (slice out 4 4) = 39 ∧ leValue (slice out 40 4) = 3 := by
  obtain ⟨out, hout, _, _, _, _, h⟩ := createWav_size_fields [1, 2, 3] 16000 1 16
  exact ⟨out, hout, h (by decide)⟩

/-- C1 (counterexample): for a payload of 4294967260 bytes, N + 36 is 2^32 and the
field at offset 4 reads 0, not N + 36. -/
theorem createWav_size_field_wraps :
    ∃ out, createWavInMemory (List.replicate 4294967260 0) 16000 1 16 = Outcome.ok out ∧
      leValue (slice out 4 4) = 0 ∧
      leValue (slice out 4 4) ≠ (List.replicate 4294967260 (0 : Byte)).length + 36 := by
  obtain ⟨out, hout, h4, _⟩ := createWav_riffSize (List.replicate 4294967260 0) 16000 1 16
  have hv : leValue (slice out 4 4) = 0 := by
    rw [h4, leValue_leBytes32, List.length_replicate]
  refine ⟨out, hout, hv, ?_⟩
  rw [hv, List.length_replicate]
  omega

/-- C2 (amended): for every input the first 44 bytes of the output are the PCM
RIFF/WAVE header: "RIFF" at 0, "WAVE" at 8, "fmt " at 12, 16 at 16, 1 at 20,
"data" at 36, and each numeric field little-endian and holding its value reduced
to the width of the field (two's complement): channels mod 2^16 at 22, sampleRate
mod 2^32 at 24, sampleRate * channels * (bitDepth / 8) mod 2^32 at 28,
channels * (bitDepth / 8) mod 2^16 at 32, bitDepth mod 2^16 at 34; a value that
lies in the range of its field is held exactly. -/
theorem createWav_header (pcmData : List Byte) (sampleRate channels bitDepth : Int) :
    ∃ out, createWavInMemory pcmData sampleRate channels bitDepth = Outcome.ok out ∧
      44 ≤ out.length ∧
      slice out 0 4 = asciiBytes "RIFF" ∧
      slice out 8 4 = asciiBytes "WAVE" ∧
      slice out 12 4 = asciiBytes "fmt " ∧
      slice out 16 4 = leBytes32 16 ∧
      slice out 20 2 = leBytes16 1 ∧
      (slice out 22 2).length = 2 ∧
      (leValue (slice out 22 2) : Int) = channels % 65536 ∧
      (slice out 24 4).length = 4 ∧
      (leValue (slice out 24 4) : Int) = sampleRate % 4294967296 ∧
      (slice out 28 4).length = 4 ∧
      (leValue (slice out 28 4) : Int)
        = (sampleRate * channels * Int.tdiv bitDepth 8) % 4294967296 ∧
      (slice out 32 2).length = 2 ∧
      (leValue (slice out 32 2) : Int) = (channels * Int.tdiv bitDepth 8) % 65536 ∧
      (slice out 34 2).length = 2 ∧
      (leValue (slice out 34 2) : Int) = bitDepth % 65536 ∧
      slice out 36 4 = asciiBytes "data" ∧
      (0 ≤ channels ∧ channels < 65536 → (leValue (slice out 22 2) : Int) = channels) ∧
      (0 ≤ sampleRate ∧ sampleRate < 4294967296 →
        (leValue (slice out 24 4) : Int) = sampleRate) ∧
      (0 ≤ sampleRate * channels * Int.tdiv bitDepth 8 ∧
        sampleRate * channels * Int.tdiv bitDepth 8 < 4294967296 →
        (leValue (slice out 28 4) : Int) = sampleRate * channels * Int.tdiv bitDepth 8) ∧
      (0 ≤ channels * Int.tdiv bitDepth 8 ∧ channels * Int.tdiv bitDepth 8 < 65536 →
        (leValue (slice out 32 2) : Int) = channels * Int.tdiv bitDepth 8) ∧
      (0 ≤ bitDepth ∧ bitDepth < 65536 → (leValue (slice out 34 2) : Int) = bitDepth) := by
  obtain ⟨f0, -, f8, f12, f16, f20, f22, f24, f28, f32, f34, f36, -⟩ :=
    wavHeader_fields pcmData.length sampleRate channels bitDepth pcmData
  have e22 : (leValue (leBytes16 (uint16 channels)) : Int) = channels % 65536 := by
    rw [leValue_leBytes16, Nat.mod_eq_of_lt (uint16_lt _), uint16_cast]
  have e24 : (leValue (leBytes32 (uint32 sampleRate)) : Int) = sampleRate % 4294967296 := by
    rw [leValue_leBytes32, Nat.mod_eq_of_lt (uint32_lt _), uint32_cast]
  have e28 : (leValue (leBytes32 (uint32 (mulInt (mulInt sampleRate channels)
      (divInt bitDepth 8)))) : Int)
      = (sampleRate * channels * Int.tdiv bitDepth 8) % 4294967296 := by
    rw [leValue_leBytes32, Nat.mod_eq_of_lt (uint32_lt _), uint32_cast, byteRate_emod]
  have e32 : (leValue (leBytes16 (uint16 (mulInt channels (divInt bitDepth 8)))) : Int)
      = (channels * Int.tdiv bitDepth 8) % 65536 := by
    rw [leValue_leBytes16, Nat.mod_eq_of_lt (uint16_lt _), uint16_cast, blockAlign_emod]
  have e34 : (leValue (leBytes16 (uint16 bitDepth)) : Int) = bitDepth % 65536 := by
    rw [leValue_leBytes16, Nat.mod_eq_of_lt (uint16_lt _), uint16_cast]
  refine ⟨_, createWavInMemory_eq pcmData sampleRate channels bitDepth, ?_, f0, f8, f12, f16,
    f20, ?_, ?_, ?_, ?_, ?_, ?_, ?_, ?_, ?_, ?_, f36, ?_, ?_, ?_, ?_, ?_⟩
  · rw [List.length_append, wavHeader_length]; omega
  · rw [f22]; rfl
  · rw [f22, e22]
  · rw [f24]; rfl
  · rw [f24, e24]
  · rw [f28]; rfl
  · rw [f28, e28]
  · rw [f32]; rfl
  · rw [f32, e32]
  · rw [f34]; rfl
  · rw [f34, e34]
  · rintro ⟨h0, h1⟩; rw [f22, e22]; exact Int.emod_eq_of_lt h0 h1
  · rintro ⟨h0, h1⟩; rw [f24, e24]; exact Int.emod_eq_of_lt h0 h1
  · rintro ⟨h0, h1⟩; rw [f28, e28]; exact Int.emod_eq_of_lt h0 h1
  · rintro ⟨h0, h1⟩; rw [f32, e32]; exact Int.emod_eq_of_lt h0 h1
  · rintro ⟨h0, h1⟩; rw [f34, e34]; exact Int.emod_eq_of_lt h0 h1

/-- Witness for C2: with the capture configuration (16000 Hz, mono,
16 bit) the numeric fields read 1, 16000, 32000, 2 and 16. -/
theorem createWav_header_witness :
    ∃ out, createWavInMemory [7, 9] 16000 1 16 = Outcome.ok out ∧
      (leValue (slice out 22 2) : Int) = 1 ∧ (leValue (slice out 24 4) : Int) = 16000 ∧
      (leValue (slice out 28 4) : Int) = 16000 * 1 * Int.tdiv 16 8 ∧
      (leValue (slice out 32 2) : Int) = 1 * Int.tdiv 16 8 ∧
      (leValue (slice out 34 2) : Int) = 16 := by
  obtain ⟨out, hout, _, _, _, _, _, _, _, _, _, _, _, _, _, _, _, _, _, h1, h2, h3, h4, h5⟩ :=
    createWav_header [7, 9] 16000 1 16
  exact ⟨out, hout, h1 (by decide), h2 (by decide), h3 (by decide), h4 (by decide),
    h5 (by decide)⟩

/-- C2 (counterexample): with 65536 channels the 16-bit field at offset 22 reads 0,
not the channel count. -/
theorem createWav_channels_wrap :
    ∃ out, createWavInMemory [] 16000 65536 16 = Outcome.ok out ∧
      leValue (slice out 22 2) = 0 ∧ (leValue (slice out 22 2) : Int) ≠ 65536 := by
  refine ⟨_, createWavInMemory_eq [] 16000 65536 16, ?_, ?_⟩ <;>
    rw [(wavHeader_fields _ _ _ _ _).2.2.2.2.2.2.1] <;> decide

/-- C3: for every PCM payload, the empty one included, `createWavInMemory` returns a
nil error and bytes of length 44 + N whose part from offset 44 on is the payload. -/
theorem createWav_payload (pcmData : List Byte) (sampleRate channels bitDepth : Int) :
    ∃ out, createWavInMemory pcmData sampleRate channels bitDepth = Outcome.ok out ∧
      out.length = 44 + pcmData.length ∧ out.drop 44 = pcmData := by
  refine ⟨_, createWavInMemory_eq pcmData sampleRate channels bitDepth, ?_, ?_⟩
  · rw [List.length_append, wavHeader_length]
  · rw [← wavHeader_length pcmData.length sampleRate channels bitDepth, List.drop_left]

/-! ## `audioChanReader.Read`, one call -/

theorem copy_snd (dst src : List Byte) : (copy dst src).2 = min dst.length src.length := rfl

theorem copy_bytes (dst src : List Byte) :
    (copy dst src).1.take (copy dst src).2 = src.take dst.length := by
  simp only [copy]
  rw [List.take_append_of_le_length (by simp), List.take_take, Nat.min_self]
  rcases Nat.le_total dst.length src.length with hle | hle
  · rw [Nat.min_eq_left hle]
  · rw [Nat.min_eq_right hle, List.take_length, List.take_of_length_le hle]

/-- A call on a reader whose buffer holds bytes. -/
theorem Read_buffered (acr : audioChanReader) (p : List Byte) (h : acr.buffer ≠ []) :
    (acr.Read p).bytes = acr.buffer.take p.length ∧
    (acr.Read p).n = min p.length acr.buffer.length ∧
    (acr.Read p).acr = { acr with buffer := acr.buffer.drop p.length } ∧
    ((acr.Read p).err = some IOError.EOF ↔
      (acr.buffer.length ≤ p.length ∧ acr.closed = true)) ∧
    ((acr.Read p).err = none ↔ ¬ (acr.buffer.length ≤ p.length ∧ acr.closed = true)) := by
  have hpos : acr.buffer.length > 0 := List.length_pos.mpr h
  have hdrop : acr.buffer.drop (min p.length acr.buffer.length) = acr.buffer.drop p.length := by
    rcases Nat.le_total p.length acr.buffer.length with hle | hle
    · rw [Nat.min_eq_left hle]
    · rw [Nat.min_eq_right hle, List.drop_length, List.drop_eq_nil_of_le hle]
  have hlen : (acr.buffer.drop p.length).length = 0 ↔ acr.buffer.length ≤ p.length := by
    rw [List.length_drop]; omega
  unfold audioChanReader.Read
  rw [if_pos hpos]
  simp only [copy_snd, hdrop, hlen]
  by_cases hc : acr.buffer.length ≤ p.length ∧ acr.closed = true
  · rw [if_pos hc]
    refine ⟨?_, rfl, rfl, by simp [hc], by simp [hc]⟩
    simp only [ReadResult.bytes]
    rw [← copy_snd]
    exact copy_bytes p acr.buffer
  · rw [if_neg hc]
    refine ⟨?_, rfl, rfl, by simp [hc], by simp [hc]⟩
    simp only [ReadResult.bytes]
    rw [← copy_snd]
    exact copy_bytes p acr.buffer

/-- A call on a closed reader whose buffer is empty. -/
theorem Read_closed_empty (acr : audioChanReader) (p : List Byte) (hb : acr.buffer = [])
    (hc : acr.closed = true) :
    acr.Read p = { acr := acr, p := p, n := 0, err := some IOError.EOF } := by
  unfold audioChanReader.Read
  simp [hb, hc]

/-- A call that finds the buffer empty, the reader open and nothing to receive. -/
theorem Read_timeout (acr : audioChanReader) (p : List Byte) (hb : acr.buffer = [])
    (hc : acr.closed = false) (hq : acr.pcmChan.queue = []) (ho : acr.pcmChan.isClosed = false) :
    acr.Read p = { acr := acr, p := p, n := 0, err := none } := by
  obtain ⟨⟨q, o⟩, b, c, r⟩ := acr
  simp only at hb hc hq ho
  subst hb hc hq ho
  simp [audioChanReader.Read, Chan.recvOrTimeout]

/-- A call that finds the buffer empty, the reader open and the channel closed
and drained. -/
theorem Read_chanClosed (acr : audioChanReader) (p : List Byte) (hb : acr.buffer = [])
    (hc : acr.closed = false) (hq : acr.pcmChan.queue = []) (ho : acr.pcmChan.isClosed = true) :
    acr.Read p = { acr := { acr with closed := true }, p := p, n := 0, err := some IOError.EOF } := by
  obtain ⟨⟨q, o⟩, b, c, r⟩ := acr
  simp only at hb hc hq ho
  subst hb hc hq ho
  simp [audioChanReader.Read, Chan.recvOrTimeout]

/-- A call that finds the buffer empty, the reader open and a chunk to receive. -/
theorem Read_chunk (acr : audioChanReader) (p d : List Byte) (rest : List (List Byte))
    (hb : acr.buffer = []) (hc : acr.closed = false) (hq : acr.pcmChan.queue = d :: rest) :
    (acr.Read p).bytes = d.take p.length ∧
    (acr.Read p).n = min p.length d.length ∧
    (acr.Read p).acr = { acr with pcmChan := { acr.pcmChan with queue := rest },
                                  buffer := d.drop p.length } ∧
    (acr.Read p).err = none := by
  obtain ⟨⟨q, o⟩, b, c, r⟩ := acr
  simp only at hb hc hq
  subst hb hc hq
  simp only [audioChanReader.Read, Chan.recvOrTimeout, List.length_nil, gt_iff_lt,
    Nat.lt_irrefl, if_false, Bool.false_eq_true, and_false, List.nil_append, copy_snd]
  by_cases hd : d.length = 0
  · have hd' : d = [] := List.length_eq_zero.mp hd
    subst hd'
    simp [ReadResult.bytes]
  · rw [if_neg hd]
    refine ⟨?_, rfl, ?_, rfl⟩
    · simp only [ReadResult.bytes]
      rw [← copy_snd]
      exact copy_bytes p d
    · by_cases hlt : min p.length d.length < d.length
      · rw [if_pos hlt]
        have : min p.length d.length = p.length := by omega
        rw [this]
      · rw [if_neg hlt]
        have : d.length ≤ p.length := by omega
        rw [List.drop_eq_nil_of_le this]

/-- A call never changes whether the channel is closed. -/
theorem Read_isClosed (acr : audioChanReader) (p : List Byte) :
    (acr.Read p).acr.pcmChan.isClosed = acr.pcmChan.isClosed := by
  by_cases hb : acr.buffer = []
  · cases hc : acr.closed
    · cases hq : acr.pcmChan.queue with
      | nil =>
        cases ho : acr.pcmChan.isClosed
        · rw [Read_timeout acr p hb hc hq ho, ho]
        · rw [Read_chanClosed acr p hb hc hq ho]; exact ho
      | cons d rest => rw [(Read_chunk acr p d rest hb hc hq).2.2.1]
    · rw [Read_closed_empty acr p hb hc]
  · rw [(Read_buffered acr p hb).2.2.1]

/-- While the closed flag is unset and the channel is open, a call returns a nil
error and leaves the flag unset. -/
theorem Read_open (acr : audioChanReader) (p : List Byte) (hc : acr.closed = false)
    (ho : acr.pcmChan.isClosed = false) :
    (acr.Read p).err = none ∧ (acr.Read p).acr.closed = false := by
  by_cases hb : acr.buffer = []
  · cases hq : acr.pcmChan.queue with
    | nil => rw [Read_timeout acr p hb hc hq ho]; exact ⟨rfl, hc⟩
    | cons d rest =>
      obtain ⟨-, -, h3, h4⟩ := Read_chunk acr p d rest hb hc hq
      rw [h3]; exact ⟨h4, hc⟩
  · obtain ⟨-, -, h3, -, h5⟩ := Read_buffered acr p hb
    rw [h3]
    refine ⟨h5.mpr ?_, hc⟩
    rw [hc]; simp

/-- Each call conserves bytes: what it returns, what it leaves in the buffer and
what it leaves on the channel are together what the buffer and the channel held. -/
theorem Read_conserves (acr : audioChanReader) (p : List Byte) :
    (acr.Read p).bytes ++ (acr.Read p).acr.buffer ++ (acr.Read p).acr.pcmChan.queue.flatten
      = acr.buffer ++ acr.pcmChan.queue.flatten := by
  by_cases hb : acr.buffer = []
  · cases hc : acr.closed
    · cases hq : acr.pcmChan.queue with
      | nil =>
        cases ho : acr.pcmChan.isClosed
        · rw [Read_timeout acr p hb hc hq ho]; simp [ReadResult.bytes, hb, hq]
        · rw [Read_chanClosed acr p hb hc hq ho]; simp [ReadResult.bytes, hb, hq]
      | cons d rest =>
        obtain ⟨h1, -, h3, -⟩ := Read_chunk acr p d rest hb hc hq
        rw [h1, h3, hb]
        simp
    · rw [Read_closed_empty acr p hb hc]; simp [ReadResult.bytes, hb]
  · obtain ⟨h1, -, h3, -⟩ := Read_buffered acr p hb
    rw [h1, h3]
    simp

/-! ## Runs of calls -/

theorem readAll_length (acr : audioChanReader) (ps : List (List Byte)) :
    (readAll acr ps).length = ps.length := by
  induction ps generalizing acr with
  | nil => rfl
  | cons p ps ih => simp [readAll, ih]

theorem readAll_open (acr : audioChanReader) (ps : List (List Byte)) (hc : acr.closed = false)
    (ho : acr.pcmChan.isClosed = false) :
    ∀ r ∈ readAll acr ps, r.err = none ∧ r.acr.closed = false := by
  induction ps generalizing acr with
  | nil => intro r hr; simp [readAll] at hr
  | cons p ps ih =>
    intro r hr
    simp only [readAll, List.mem_cons] at hr
    rcases hr with rfl | hr
    · exact Read_open acr p hc ho
    · exact ih (acr.Read p).acr (Read_open acr p hc ho).2
        (by rw [Read_isClosed]; exact ho) r hr

theorem readAll_idle (acr : audioChanReader) (ps : List (List Byte)) (hb : acr.buffer = [])
    (hc : acr.closed = false) (hq : acr.pcmChan.queue = []) (ho : acr.pcmChan.isClosed = false) :
    readAll acr ps = ps.map (fun p => { acr := acr, p := p, n := 0, err := none }) := by
  induction ps with
  | nil => rfl
  | cons p ps ih =>
    simp only [readAll, List.map_cons, Read_timeout acr p hb hc hq ho, ih]

/-- C4: on a reader whose closed flag is unset and whose chunk channel is open, any
number of consecutive `Read` calls with nothing sent in between all return a nil
error (never `io.EOF`) and leave the flag unset; when moreover the internal
buffer is empty and no chunk is waiting, each call returns zero bytes and a nil
error and leaves the reader and the request buffer as they were. -/
theorem read_never_eof_while_open (acr : audioChanReader) (ps : List (List Byte))
    (hclosed : acr.closed = false) (hopen : acr.pcmChan.isClosed = false) :
    (readAll acr ps).length = ps.length ∧
    (∀ r ∈ readAll acr ps, r.err ≠ some IOError.EOF ∧ r.err = none ∧ r.acr.closed = false) ∧
    (acr.buffer = [] → acr.pcmChan.queue = [] →
      readAll acr ps = ps.map (fun p => { acr := acr, p := p, n := 0, err := none }) ∧
      readAllFinal acr ps = acr) := by
  refine ⟨readAll_length acr ps, ?_, ?_⟩
  · intro r hr
    obtain ⟨h1, h2⟩ := readAll_open acr ps hclosed hopen r hr
    exact ⟨by rw [h1]; simp, h1, h2⟩
  · intro hb hq
    refine ⟨readAll_idle acr ps hb hclosed hq hopen, ?_⟩
    induction ps with
    | nil => rfl
    | cons p ps ih => simp only [readAllFinal, Read_timeout acr p hb hclosed hq hopen, ih]

/-- Witness for C4: three calls on a fresh reader over a fresh channel. -/
theorem read_never_eof_while_open_witness :
    readAll (newAudioChanReader Chan.make) [[0, 0], [0], []]
      = [{ acr := newAudioChanReader Chan.make, p := [0, 0], n := 0, err := none },
         { acr := newAudioChanReader Chan.make, p := [0], n := 0, err := none },
         { acr := newAudioChanReader Chan.make, p := [], n := 0, err := none }] :=
  ((read_never_eof_while_open (newAudioChanReader Chan.make) [[0, 0], [0], []] rfl rfl).2.2
    rfl rfl).1

theorem runOps_some (acr : audioChanReader) (ops : List Op) (ho : acr.pcmChan.isClosed = false) :
    ∃ final out, runOps acr ops = some (final, out) := by
  induction ops generalizing acr with
  | nil => exact ⟨acr, [], rfl⟩
  | cons op ops ih =>
    cases op with
    | send d =>
      simp only [runOps, Chan.send, ho, Bool.false_eq_true, if_false]
      exact ih _ rfl
    | read p =>
      obtain ⟨final, out, h⟩ := ih (acr.Read p).acr (by rw [Read_isClosed]; exact ho)
      exact ⟨final, (acr.Read p).bytes ++ out, by simp only [runOps, h]⟩

theorem runOps_conserves (acr final : audioChanReader) (ops : List Op) (out : List Byte)
    (h : runOps acr ops = some (final, out)) :
    out ++ final.buffer ++ final.pcmChan.queue.flatten
      = acr.buffer ++ (acr.pcmChan.queue ++ sentChunks ops).flatten := by
  induction ops generalizing acr out with
  | nil =>
    simp only [runOps, Option.some.injEq, Prod.mk.injEq] at h
    obtain ⟨rfl, rfl⟩ := h
    simp [sentChunks]
  | cons op ops ih =>
    cases op with
    | send d =>
      cases ho : acr.pcmChan.isClosed
      · simp only [runOps, Chan.send, ho, Bool.false_eq_true, if_false] at h
        rw [ih _ out h]
        simp [sentChunks]
      · simp [runOps, Chan.send, ho] at h
    | read p =>
      simp only [runOps] at h
      cases hr : runOps (acr.Read p).acr ops with
      | none => simp [hr] at h
      | some res =>
        obtain ⟨fin2, out2⟩ := res
        simp only [hr, Option.some.injEq, Prod.mk.injEq] at h
        obtain ⟨rfl, rfl⟩ := h
        have h1 := ih (acr.Read p).acr out2 hr
        have h2 := Read_conserves acr p
        simp only [sentChunks, List.flatten_append, List.append_assoc] at h1 h2 ⊢
        rw [h1, ← List.append_assoc acr.buffer, ← h2]
        simp only [List.append_assoc]

/-- C5 (amended): after `AudioPlayer.Interrupt`, no later `Read` returns a byte that
was held in the reader's internal buffer at the time of the interrupt: with the
channel open, the bytes the later reads return are, in order, a prefix of the
chunks on the channel (those queued at the time of the interrupt, then those sent
afterwards), and they are the same whatever the buffer held. The chunks queued
on the channel at the time of the interrupt are not discarded. -/
theorem interrupt_discards_buffer (ap : AudioPlayer) (ops : List Op)
    (hopen : ap.audioPCMChan.isClosed = false) :
    ∃ final out, runOps ap.Interrupt.chanReader ops = some (final, out) ∧
      out ++ final.buffer ++ final.pcmChan.queue.flatten
        = (ap.audioPCMChan.queue ++ sentChunks ops).flatten ∧
      out <+: (ap.audioPCMChan.queue ++ sentChunks ops).flatten ∧
      ∀ stale : List Byte,
        runOps (AudioPlayer.Interrupt
          { ap with chanReader := { ap.chanReader with buffer := stale } }).chanReader ops
          = some (final, out) := by
  obtain ⟨final, out, h⟩ := runOps_some ap.Interrupt.chanReader ops hopen
  have hc := runOps_conserves _ _ _ _ h
  simp only [AudioPlayer.Interrupt, List.nil_append] at hc
  refine ⟨final, out, h, hc, ?_, fun stale => h⟩
  exact ⟨final.buffer ++ final.pcmChan.queue.flatten, by rw [← List.append_assoc]; exact hc⟩

/-- Witness for C5: a player with a stale byte buffered and one chunk queued. -/
theorem interrupt_discards_buffer_witness :
    ∃ final out,
      runOps (AudioPlayer.Interrupt
        { chanReader := { pcmChan := { queue := [[2, 3]], isClosed := false }, buffer := [1],
                          closed := false, reading := false },
          isPlaying := true }).chanReader [Op.read [0], Op.send [4], Op.read [0, 0]]
        = some (final, out) ∧
      out <+: ([[2, 3]] ++ sentChunks [Op.read [0], Op.send [4], Op.read [0, 0]]).flatten := by
  obtain ⟨final, out, h, _, hp, _⟩ := interrupt_discards_buffer
    { chanReader := { pcmChan := { queue := [[2, 3]], isClosed := false }, buffer := [1],
                      closed := false, reading := false },
      isPlaying := true } [Op.read [0], Op.send [4], Op.read [0, 0]] rfl
  exact ⟨final, out, h, hp⟩

/-- C5 (counterexample): a chunk queued on the channel before the interrupt is
returned by the first `Read` after it. -/
theorem interrupt_keeps_queued_chunk :
    ((AudioPlayer.Interrupt
      { chanReader := { pcmChan := { queue := [[2, 3]], isClosed := false }, buffer := [1],
                        closed := false, reading := false },
        isPlaying := true }).chanReader.Read [0, 0, 0, 0]).bytes = [2, 3] := by
  decide

/-- C6: with no interrupt and no close, for every sequence of chunks put on the
channel and every sequence of `Read` calls with any request sizes, interleaved in
any way, the bytes the reads return are, concatenated, a prefix of the
concatenation of the chunks in send order, and followed by the reader's buffer
and the chunks left on the channel they are that whole concatenation. -/
theorem chunks_delivered_in_order (queued : List (List Byte)) (ops : List Op) :
    ∃ final out,
      runOps (newAudioChanReader { queue := queued, isClosed := false }) ops = some (final, out) ∧
      out <+: (queued ++ sentChunks ops).flatten ∧
      out ++ final.buffer ++ final.pcmChan.queue.flatten = (queued ++ sentChunks ops).flatten := by
  obtain ⟨final, out, h⟩ :=
    runOps_some (newAudioChanReader { queue := queued, isClosed := false }) ops rfl
  have hc := runOps_conserves _ _ _ _ h
  simp only [newAudioChanReader, List.nil_append] at hc
  refine ⟨final, out, h, ?_, hc⟩
  exact ⟨final.buffer ++ final.pcmChan.queue.flatten, by rw [← List.append_assoc]; exact hc⟩

/-- A call on a reader whose closed flag is set: it serves the buffer, touches
nothing else, and reports `io.EOF` exactly when the buffer is empty afterwards
and the request was enough to empty it. -/
theorem Read_closed (acr : audioChanReader) (p : List Byte) (hc : acr.closed = true) :
    (acr.Read p).bytes = acr.buffer.take p.length ∧
    (acr.Read p).acr = { acr with buffer := acr.buffer.drop p.length } ∧
    ((acr.Read p).err = some IOError.EOF ↔ acr.buffer.length ≤ p.length) ∧
    ((acr.Read p).err = none ↔ p.length < acr.buffer.length) := by
  by_cases hb : acr.buffer = []
  · rw [Read_closed_empty acr p hb hc]
    obtain ⟨ch, b, c, r⟩ := acr
    simp only at hb
    subst hb
    simp [ReadResult.bytes]
  · obtain ⟨h1, -, h3, h4, h5⟩ := Read_buffered acr p hb
    refine ⟨h1, h3, ?_, ?_⟩
    · rw [h4]; simp [hc]
    · rw [h5]; simp [hc]

theorem requested_zero (ps : List (List Byte)) : requested ps 0 = 0 := by
  simp [requested]

theorem requested_cons_succ (p : List Byte) (ps : List (List Byte)) (i : Nat) :
    requested (p :: ps) (i + 1) = p.length + requested ps i := by
  simp [requested]

theorem readAll_closed (acr : audioChanReader) (ps : List (List Byte)) (hc : acr.closed = true) :
    ∀ (i : Nat) (p : List Byte) (r : ReadResult), ps[i]? = some p → (readAll acr ps)[i]? = some r →
      r.bytes = (acr.buffer.drop (requested ps i)).take p.length ∧
      r.acr = { acr with buffer := acr.buffer.drop (requested ps (i + 1)) } ∧
      (r.err = some IOError.EOF ↔ acr.buffer.length ≤ requested ps (i + 1)) ∧
      (r.err = none ↔ requested ps (i + 1) < acr.buffer.length) := by
  induction ps generalizing acr with
  | nil => intro i p r hp; simp at hp
  | cons p0 ps ih =>
    intro i p r hp hr
    obtain ⟨h1, h2, h3, h4⟩ := Read_closed acr p0 hc
    cases i with
    | zero =>
      simp only [List.getElem?_cons_zero, Option.some.injEq, readAll] at hp hr
      subst hp hr
      simp only [requested_zero, requested_cons_succ, List.drop_zero, Nat.add_zero]
      exact ⟨h1, h2, h3, h4⟩
    | succ j =>
      simp only [List.getElem?_cons_succ, readAll] at hp hr
      have hc2 : (acr.Read p0).acr.closed = true := by rw [h2]; exact hc
      obtain ⟨k1, k2, k3, k4⟩ := ih (acr.Read p0).acr hc2 j p r hp hr
      have hbuf : (acr.Read p0).acr.buffer = acr.buffer.drop p0.length := by rw [h2]
      simp only [requested_cons_succ]
      rw [hbuf, List.drop_drop] at k1
      rw [hbuf, List.drop_drop] at k2
      rw [hbuf, List.length_drop] at k3 k4
      refine ⟨k1, ?_, ?_, ?_⟩
      · rw [k2, h2]
      · rw [k3]; omega
      · rw [k4]; omega

/-- C7: after `SignalClose`, in any run of consecutive `Read` calls the flag stays
set and the channel is never touched; call number i returns the next bytes of the
buffer as it stood at close time, and reports `io.EOF` exactly when the requests
up to and including it cover the whole buffer, that is, from the call that
empties the buffer on. With an empty buffer every call returns zero bytes and
`io.EOF` and changes nothing, whatever is queued on the channel; with a non-empty
buffer a call with a non-empty request returns at least one byte. -/
theorem eof_after_signalClose (acr : audioChanReader) (ps : List (List Byte)) :
    (readAll acr.SignalClose ps).length = ps.length ∧
    (∀ (i : Nat) (p : List Byte) (r : ReadResult),
      ps[i]? = some p → (readAll acr.SignalClose ps)[i]? = some r →
        r.bytes = (acr.buffer.drop (requested ps i)).take p.length ∧
        r.acr = { acr with closed := true, buffer := acr.buffer.drop (requested ps (i + 1)) } ∧
        (r.err = some IOError.EOF ↔ acr.buffer.length ≤ requested ps (i + 1)) ∧
        (r.err = none ↔ requested ps (i + 1) < acr.buffer.length)) ∧
    (acr.buffer = [] →
      readAll acr.SignalClose ps
        = ps.map (fun p => { acr := acr.SignalClose, p := p, n := 0, err := some IOError.EOF })) ∧
    (∀ p : List Byte, acr.buffer ≠ [] → p ≠ [] → 0 < (acr.SignalClose.Read p).n ∧
      (acr.SignalClose.Read p).bytes = acr.buffer.take p.length) := by
  refine ⟨readAll_length _ ps, ?_, ?_, ?_⟩
  · intro i p r hp hr
    exact readAll_closed acr.SignalClose ps rfl i p r hp hr
  · intro hb
    induction ps with
    | nil => rfl
    | cons p ps ih =>
      simp only [readAll, List.map_cons, Read_closed_empty acr.SignalClose p hb rfl, ih]
  · intro p hb hp
    obtain ⟨h1, h2, -⟩ := Read_buffered acr.SignalClose p hb
    refine ⟨?_, h1⟩
    rw [h2]
    have := List.length_pos.mpr hb
    have := List.length_pos.mpr hp
    simp only [audioChanReader.SignalClose] at *
    omega

/-- Witness for C7: a buffer of three bytes read with requests of two bytes; the
second call empties the buffer and reports `io.EOF`, the first does not. -/
theorem eof_after_signalClose_witness :
    ∃ r0 r1,
      readAll (audioChanReader.SignalClose
        { pcmChan := { queue := [[9]], isClosed := false }, buffer := [1, 2, 3],
          closed := false, reading := false }) [[0, 0], [0, 0]] = [r0, r1] ∧
      r0.bytes = [1, 2] ∧ r0.err = none ∧ r1.bytes = [3] ∧ r1.err = some IOError.EOF := by
  have h := (eof_after_signalClose
    { pcmChan := { queue := [[9]], isClosed := false }, buffer := [1, 2, 3],
      closed := false, reading := false } [[0, 0], [0, 0]]).2.1
  refine ⟨_, _, rfl, ?_, ?_, ?_, ?_⟩
  · exact (h 0 [0, 0] _ rfl rfl).1
  · exact (h 0 [0, 0] _ rfl rfl).2.2.2.mpr (by decide)
  · exact (h 1 [0, 0] _ rfl rfl).1
  · exact (h 1 [0, 0] _ rfl rfl).2.2.1.mpr (by decide)

/-- C8 (amended): once `AudioPlayer.Close` has run, the reader's closed flag is set
and the chunk channel is closed with its queued chunks as before, and a
`TTSProcessor.Process` call that reaches its send (non-empty text, synthesis
succeeded) panics with "send on closed channel": the chunk is not put on the
channel and the send produces no new state. -/
theorem send_after_close_panics (ap closedPlayer : AudioPlayer) (text : String)
    (audioBytes : List Byte) (hclose : ap.Close = Outcome.ok closedPlayer)
    (htext : text ≠ "") :
    closedPlayer.chanReader.closed = true ∧
    closedPlayer.audioPCMChan.isClosed = true ∧
    closedPlayer.audioPCMChan.queue = ap.audioPCMChan.queue ∧
    TTSProcessor.Process closedPlayer.audioPCMChan text (some audioBytes)
      = Outcome.panic "send on closed channel" := by
  cases ho : ap.chanReader.pcmChan.isClosed
  · simp only [AudioPlayer.Close, audioChanReader.SignalClose, Chan.close, ho,
      Bool.false_eq_true, if_false, Outcome.ok.injEq] at hclose
    subst hclose
    simp [AudioPlayer.audioPCMChan, TTSProcessor.Process, Chan.send, htext]
  · simp [AudioPlayer.Close, audioChanReader.SignalClose, Chan.close, ho] at hclose

/-- Witness for C8: closing a fresh player succeeds, and a later send panics. -/
theorem send_after_close_panics_witness :
    TTSProcessor.Process
      (AudioPlayer.audioPCMChan
        { chanReader := { pcmChan := { queue := [], isClosed := true }, buffer := [],
                          closed := true, reading := false },
          isPlaying := false }) "bonjour" (some [1, 2])
      = Outcome.panic "send on closed channel" :=
  (send_after_close_panics (NewAudioPlayer Chan.make)
    { chanReader := { pcmChan := { queue := [], isClosed := true }, buffer := [],
                      closed := true, reading := false },
      isPlaying := false } "bonjour" [1, 2] rfl (by decide)).2.2.2

/-- C8 (counterexample): a fresh player is closed; a `Process` call that then sends
the chunk [1, 2] on its channel is not a successful no-op, it panics. -/
theorem send_after_close_example :
    ∃ closedPlayer, (NewAudioPlayer Chan.make).Close = Outcome.ok closedPlayer ∧
      TTSProcessor.Process closedPlayer.audioPCMChan "bonjour" (some [1, 2])
        = Outcome.panic "send on closed channel" ∧
      TTSProcessor.Process closedPlayer.audioPCMChan "bonjour" (some [1, 2])
        ≠ Outcome.ok closedPlayer.audioPCMChan := by
  refine ⟨_, rfl, ?_, ?_⟩ <;> decide

/-- C9 (amended): `AudioPlayer.Interrupt` changes only the reader's internal buffer:
afterwards the buffer is empty, and the closed flag, the chunk channel with its
queued chunks, the reading flag and the isPlaying flag are as before; a `Read`
after the interrupt on a reader whose closed flag is unset and whose chunk
channel is open returns a nil error, not `io.EOF`. -/
theorem interrupt_frame (ap : AudioPlayer) :
    ap.Interrupt.chanReader.buffer = [] ∧
    ap.Interrupt.chanReader.closed = ap.chanReader.closed ∧
    ap.Interrupt.chanReader.pcmChan = ap.chanReader.pcmChan ∧
    ap.Interrupt.chanReader.reading = ap.chanReader.reading ∧
    ap.Interrupt.isPlaying = ap.isPlaying ∧
    (ap.chanReader.closed = false → ap.chanReader.pcmChan.isClosed = false →
      ∀ p : List Byte, (ap.Interrupt.chanReader.Read p).err = none ∧
        (ap.Interrupt.chanReader.Read p).acr.closed = false) := by
  refine ⟨rfl, rfl, rfl, rfl, rfl, ?_⟩
  intro hc ho p
  exact Read_open ap.Interrupt.chanReader p hc ho

/-- Witness for C9: a playing adapter with two bytes buffered and one chunk queued. -/
theorem interrupt_frame_witness :
    ((AudioPlayer.Interrupt
      { chanReader := { pcmChan := { queue := [[5]], isClosed := false }, buffer := [1, 2],
                        closed := false, reading := false },
        isPlaying := true }).chanReader.Read [0, 0]).err = none :=
  ((interrupt_frame
    { chanReader := { pcmChan := { queue := [[5]], isClosed := false }, buffer := [1, 2],
                      closed := false, reading := false },
      isPlaying := true }).2.2.2.2.2 rfl rfl [0, 0]).1

/-- C9 (counterexample): the closed flag is unset, the channel has been closed by
its sender, one byte is buffered. Before the interrupt a `Read` returns that byte
with a nil error; after the interrupt the `Read` reports `io.EOF`. -/
theorem interrupt_then_eof :
    ((AudioPlayer.Interrupt
      { chanReader := { pcmChan := { queue := [], isClosed := true }, buffer := [1],
                        closed := false, reading := false },
        isPlaying := true }).chanReader.Read [0]).err = some IOError.EOF ∧
    (audioChanReader.Read
      { pcmChan := { queue := [], isClosed := true }, buffer := [1],
        closed := false, reading := false } [0]).err = none := by
  decide

/-! ## `AudioCapturer.Start` -/

theorem callbackActions_count_close (cbs : List Callback) :
    ((cbs.map callbackActions).flatten).count CaptureAction.queueClose = 0 := by
  induction cbs with
  | nil => rfl
  | cons cb cbs ih =>
    rw [List.map_cons, List.flatten_cons, List.count_append, ih]
    obtain ⟨input, outcome⟩ := cb
    cases outcome <;> simp [callbackActions]

theorem callbackActions_count_stop (cbs : List Callback) :
    ((cbs.map callbackActions).flatten).count CaptureAction.stopStream = 0 ∧
    ((cbs.map callbackActions).flatten).count CaptureAction.closeStream = 0 := by
  induction cbs with
  | nil => exact ⟨rfl, rfl⟩
  | cons cb cbs ih =>
    rw [List.map_cons, List.flatten_cons, List.count_append, List.count_append, ih.1, ih.2]
    obtain ⟨input, outcome⟩ := cb
    cases outcome <;> simp [callbackActions]

/-- C10: on each of the three ways `AudioCapturer.Start` returns (opening the stream
fails, starting it fails, the context is cancelled after a successful start) the
output queue is closed exactly once and no send on or close of the queue comes
after it. When opening fails nothing but the log line precedes the close; when
starting fails the stream is closed, then the queue; on cancellation the stream
is stopped, then closed, then the queue is closed, each exactly once. -/
theorem start_closes_queue_last (ac : AudioCapturer) (env : CaptureEnv) :
    (ac.Start env).count CaptureAction.queueClose = 1 ∧
    (∃ pre post, ac.Start env = pre ++ CaptureAction.queueClose :: post ∧
      (∀ a ∈ post, a.onQueue = false)) ∧
    (env.openErr = true →
      ac.Start env = [CaptureAction.openStream ac.channels ac.sampleRate,
        CaptureAction.log "Erreur ouverture flux PortAudio", CaptureAction.queueClose]) ∧
    (env.openErr = false → env.startErr = true →
      ac.Start env = [CaptureAction.openStream ac.channels ac.sampleRate,
        CaptureAction.startStream, CaptureAction.log "Erreur demarrage flux PortAudio",
        CaptureAction.closeStream, CaptureAction.queueClose]) ∧
    (env.openErr = false → env.startErr = false →
      (ac.Start env).count CaptureAction.stopStream = 1 ∧
      (ac.Start env).count CaptureAction.closeStream = 1 ∧
      ∃ pre mid1 mid2 post,
        ac.Start env = pre ++ CaptureAction.stopStream :: mid1 ++ CaptureAction.closeStream ::
          mid2 ++ CaptureAction.queueClose :: post ∧
        (∀ a ∈ mid1 ++ mid2 ++ post, a.onQueue = false)) := by
  obtain ⟨openErr, startErr, stopErr, closeErr, callbacks⟩ := env
  have hcb := callbackActions_count_close callbacks
  have hcs := callbackActions_count_stop callbacks
  cases openErr
  · cases startErr
    · -- cancellation after a successful start
      refine ⟨?_, ?_, ?_, ?_, ?_⟩
      · cases stopErr <;> cases closeErr <;>
          simp [AudioCapturer.Start, List.count_cons, List.count_append, hcb]
      · refine ⟨CaptureAction.openStream ac.channels ac.sampleRate :: CaptureAction.startStream ::
          CaptureAction.log "Capture audio demarree" ::
          (callbacks.map callbackActions).flatten ++
          [CaptureAction.log "Arret capture audio", CaptureAction.stopStream] ++
          (if stopErr then [CaptureAction.log "Erreur arret flux PortAudio"] else []) ++
          [CaptureAction.closeStream] ++
          (if closeErr then [CaptureAction.log "Erreur fermeture flux PortAudio"] else []),
          [CaptureAction.log "Capture audio terminee et canal de sortie ferme"], ?_, ?_⟩
        · simp [AudioCapturer.Start]
        · intro a ha
          simp only [List.mem_singleton] at ha
          subst ha
          rfl
      · intro h; cases h
      · intro _ h; cases h
      · intro _ _
        refine ⟨?_, ?_, ?_⟩
        · cases stopErr <;> cases closeErr <;>
            simp [AudioCapturer.Start, List.count_cons, List.count_append, hcs.1]
        · cases stopErr <;> cases closeErr <;>
            simp [AudioCapturer.Start, List.count_cons, List.count_append, hcs.2]
        · refine ⟨CaptureAction.openStream ac.channels ac.sampleRate ::
            CaptureAction.startStream :: CaptureAction.log "Capture audio demarree" ::
            (callbacks.map callbackActions).flatten ++ [CaptureAction.log "Arret capture audio"],
            (if stopErr then [CaptureAction.log "Erreur arret flux PortAudio"] else []),
            (if closeErr then [CaptureAction.log "Erreur fermeture flux PortAudio"] else []),
            [CaptureAction.log "Capture audio terminee et canal de sortie ferme"], ?_, ?_⟩
          · simp [AudioCapturer.Start]
          · intro a ha
            cases stopErr <;> cases closeErr <;>
              simp at ha <;> rcases ha with rfl | rfl | rfl <;> rfl
    · -- starting the stream fails
      refine ⟨by simp [AudioCapturer.Start, List.count_cons], ?_, ?_, ?_, ?_⟩
      · exact ⟨[CaptureAction.openStream ac.channels ac.sampleRate, CaptureAction.startStream,
          CaptureAction.log "Erreur demarrage flux PortAudio", CaptureAction.closeStream], [],
          by simp [AudioCapturer.Start], by simp⟩
      · intro h; cases h
      · intro _ _; simp [AudioCapturer.Start]
      · intro _ h; cases h
  · -- opening the stream fails
    refine ⟨by simp [AudioCapturer.Start, List.count_cons], ?_, ?_, ?_, ?_⟩
    · exact ⟨[CaptureAction.openStream ac.channels ac.sampleRate,
        CaptureAction.log "Erreur ouverture flux PortAudio"], [],
        by simp [AudioCapturer.Start], by simp⟩
    · intro _; simp [AudioCapturer.Start]
    · intro h; cases h
    · intro h; cases h

/-- Witness for C10: a run with the capture configuration in which two frames are
captured, one sent and one dropped, before the context is cancelled. -/
theorem start_closes_queue_last_witness :
    (AudioCapturer.Start { sampleRate := 16000, channels := 1, frameDurationMs := 20,
                           outputChan := Chan.make }
        { openErr := false, startErr := false, stopErr := false, closeErr := false,
          callbacks := [{ input := [1, -1], outcome := SendOutcome.sent },
                        { input := [2, -2], outcome := SendOutcome.timedOut }] }).count
        CaptureAction.stopStream = 1 ∧
    (AudioCapturer.Start { sampleRate := 16000, channels := 1, frameDurationMs := 20,
                           outputChan := Chan.make }
        { openErr := true, startErr := false, stopErr := false, closeErr := false,
          callbacks := [] })
      = [CaptureAction.openStream 1 16000, CaptureAction.log "Erreur ouverture flux PortAudio",
         CaptureAction.queueClose] ∧
    (AudioCapturer.Start { sampleRate := 16000, channels := 1, frameDurationMs := 20,
                           outputChan := Chan.make }
        { openErr := false, startErr := true, stopErr := false, closeErr := false,
          callbacks := [] })
      = [CaptureAction.openStream 1 16000, CaptureAction.startStream,
         CaptureAction.log "Erreur demarrage flux PortAudio", CaptureAction.closeStream,
         CaptureAction.queueClose] :=
  ⟨((start_closes_queue_last { sampleRate := 16000, channels := 1, frameDurationMs := 20,
                               outputChan := Chan.make }
      { openErr := false, startErr := false, stopErr := false, closeErr := false,
        callbacks := [{ input := [1, -1], outcome := SendOutcome.sent },
                      { input := [2, -2], outcome := SendOutcome.timedOut }] }).2.2.2.2
      rfl rfl).1,
   (start_closes_queue_last { sampleRate := 16000, channels := 1, frameDurationMs := 20,
                              outputChan := Chan.make }
      { openErr := true, startErr := false, stopErr := false, closeErr := false,
        callbacks := [] }).2.2.1 rfl,
   (start_closes_queue_last { sampleRate := 16000, channels := 1, frameDurationMs := 20,
                              outputChan := Chan.make }
      { openErr := false, startErr := true, stopErr := false, closeErr := false,
        callbacks := [] }).2.2.2.1 rfl rfl⟩

/-! ## Second `Close`, the stub classifier, one `Read` step, `NewAudioCapturer` -/

/-- C12 (amended): `AudioPlayer.Close` is not idempotent. Whenever a first `Close` has
completed, the closed flag is set and the chunk channel is closed, and a second
`Close` panics at `close(ap.audioPCMChan)` with "close of closed channel"; it
does not return. -/
theorem second_close_panics (ap closedPlayer : AudioPlayer)
    (hclose : ap.Close = Outcome.ok closedPlayer) :
    closedPlayer.chanReader.closed = true ∧
    closedPlayer.audioPCMChan.isClosed = true ∧
    closedPlayer.Close = Outcome.panic "close of closed channel" := by
  cases ho : ap.chanReader.pcmChan.isClosed
  · simp only [AudioPlayer.Close, audioChanReader.SignalClose, Chan.close, ho,
      Bool.false_eq_true, if_false, Outcome.ok.injEq] at hclose
    subst hclose
    simp [AudioPlayer.audioPCMChan, AudioPlayer.Close, audioChanReader.SignalClose, Chan.close]
  · simp [AudioPlayer.Close, audioChanReader.SignalClose, Chan.close, ho] at hclose

/-- Witness for C12: a player with a chunk queued is closed, then closed again. -/
theorem second_close_panics_witness :
    AudioPlayer.Close
      { chanReader := { pcmChan := { queue := [[7]], isClosed := true }, buffer := [],
                        closed := true, reading := false },
        isPlaying := false }
      = Outcome.panic "close of closed channel" :=
  (second_close_panics (NewAudioPlayer { queue := [[7]], isClosed := false })
    { chanReader := { pcmChan := { queue := [[7]], isClosed := true }, buffer := [],
                      closed := true, reading := false },
      isPlaying := false } rfl).2.2

/-- C12 (counterexample): a fresh player is closed; the second `Close` does not
return a state, it panics. -/
theorem second_close_example :
    ∃ closedPlayer, (NewAudioPlayer Chan.make).Close = Outcome.ok closedPlayer ∧
      closedPlayer.Close = Outcome.panic "close of closed channel" ∧
      closedPlayer.Close ≠ Outcome.ok closedPlayer := by
  refine ⟨_, rfl, ?_, ?_⟩ <;> decide

/-- C13: `NewVAD` returns a `VAD` and a nil error for every aggressiveness, and
`VAD.Process` returns voiced = true and a nil error for every frame, the empty
frame included. -/
theorem vad_always_voiced (aggressiveness : Int) (pcm : Frame) :
    ∃ v, NewVAD aggressiveness = Outcome.ok v ∧
      v.Process pcm = (true, none) ∧ v.Process [] = (true, none) :=
  ⟨{}, rfl, rfl, rfl⟩

/-- C14: one `Read` step conserves bytes. With a non-empty buffer it returns the
first min(len(p), len(buffer)) bytes of the buffer, keeps the rest as the new
buffer and leaves the channel as it was. With an empty buffer, the closed flag
unset and a chunk d next on the channel, it takes that chunk, returns the first
min(len(p), len(d)) bytes of d with a nil error and keeps exactly the remaining
bytes of d as the new buffer; for an empty chunk that is zero bytes, a nil error
and a buffer that is still empty. -/
theorem read_step_conserves (acr : audioChanReader) (p : List Byte) :
    (acr.buffer ≠ [] →
      (acr.Read p).n = min p.length acr.buffer.length ∧
      (acr.Read p).bytes = acr.buffer.take (min p.length acr.buffer.length) ∧
      (acr.Read p).acr.buffer = acr.buffer.drop (min p.length acr.buffer.length) ∧
      (acr.Read p).bytes ++ (acr.Read p).acr.buffer = acr.buffer ∧
      (acr.Read p).acr.pcmChan = acr.pcmChan) ∧
    (∀ (d : List Byte) (rest : List (List Byte)),
      acr.buffer = [] → acr.closed = false → acr.pcmChan.queue = d :: rest →
      (acr.Read p).n = min p.length d.length ∧
      (acr.Read p).bytes = d.take (min p.length d.length) ∧
      (acr.Read p).acr.buffer = d.drop (min p.length d.length) ∧
      (acr.Read p).bytes ++ (acr.Read p).acr.buffer = d ∧
      (acr.Read p).err = none ∧
      (acr.Read p).acr.pcmChan.queue = rest ∧
      (d = [] → (acr.Read p).n = 0 ∧ (acr.Read p).acr.buffer = acr.buffer)) := by
  have htake : ∀ l : List Byte, l.take (min p.length l.length) = l.take p.length := by
    intro l
    rcases Nat.le_total p.length l.length with hle | hle
    · rw [Nat.min_eq_left hle]
    · rw [Nat.min_eq_right hle, List.take_length, List.take_of_length_le hle]
  have hdrop : ∀ l : List Byte, l.drop (min p.length l.length) = l.drop p.length := by
    intro l
    rcases Nat.le_total p.length l.length with hle | hle
    · rw [Nat.min_eq_left hle]
    · rw [Nat.min_eq_right hle, List.drop_length, List.drop_eq_nil_of_le hle]
  constructor
  · intro hb
    obtain ⟨h1, h2, h3, -, -⟩ := Read_buffered acr p hb
    rw [h1, h2, h3, htake, hdrop]
    exact ⟨rfl, rfl, rfl, List.take_append_drop _ _, rfl⟩
  · intro d rest hb hc hq
    obtain ⟨h1, h2, h3, h4⟩ := Read_chunk acr p d rest hb hc hq
    rw [h1, h2, h3, htake, hdrop]
    refine ⟨rfl, rfl, rfl, List.take_append_drop _ _, h4, rfl, ?_⟩
    intro hd
    subst hd
    simp [hb]

/-- Witness for C14: a buffer of three bytes read with a request of two, and a
chunk of three bytes received with a request of two. -/
theorem read_step_conserves_witness :
    (audioChanReader.Read
      { pcmChan := { queue := [[9]], isClosed := false }, buffer := [1, 2, 3],
        closed := false, reading := false } [0, 0]).bytes = [1, 2].take (min 2 3) ++ [] ∧
    (audioChanReader.Read
      { pcmChan := { queue := [[4, 5, 6], [9]], isClosed := false }, buffer := [],
        closed := false, reading := false } [0, 0]).acr.buffer
      = List.drop (min 2 3) [4, 5, 6] := by
  refine ⟨?_, ?_⟩
  · have h := ((read_step_conserves
      { pcmChan := { queue := [[9]], isClosed := false }, buffer := [1, 2, 3],
        closed := false, reading := false } [0, 0]).1 (by decide)).2.1
    rw [h]; rfl
  · exact ((read_step_conserves
      { pcmChan := { queue := [[4, 5, 6], [9]], isClosed := false }, buffer := [],
        closed := false, reading := false } [0, 0]).2 [4, 5, 6] [[9]] rfl rfl rfl).2.2.1

/-- C18: `NewAudioCapturer` never rejects its configuration: for every sampleRate,
channels, frameDurationMs and output queue, also with channels other than 1 and
a frame duration outside 10, 20, 30, it returns a nil error and a capturer whose
four fields are the arguments given. -/
theorem newAudioCapturer_accepts (sampleRate channels frameDurationMs : Int)
    (outputChan : Chan Frame) :
    ∃ ac, (NewAudioCapturer sampleRate channels frameDurationMs outputChan).2 = Outcome.ok ac ∧
      ac.sampleRate = sampleRate ∧ ac.channels = channels ∧
      ac.frameDurationMs = frameDurationMs ∧ ac.outputChan = outputChan :=
  ⟨_, rfl, rfl, rfl, rfl, rfl⟩

/-! ## `pcm16MonoToBytes` -/

theorem pcm16Loop_eq (rest : List Int) (i : Nat) (pre : List Byte) (hpre : pre.length = i * 2) :
    pcm16Loop i rest (pre ++ List.replicate (rest.length * 2) 0)
      = pre ++ (rest.map sampleBytes).flatten := by
  induction rest generalizing i pre with
  | nil => simp [pcm16Loop]
  | cons s rest ih =>
    have hrep : List.replicate ((s :: rest).length * 2) (0 : Byte)
        = 0 :: 0 :: List.replicate (rest.length * 2) 0 := by
      rw [List.length_cons, Nat.add_mul, Nat.one_mul, List.replicate_succ, List.replicate_succ]
    have hset : ((pre ++ 0 :: 0 :: List.replicate (rest.length * 2) (0 : Byte)).set (i * 2)
        (byteOfInt (andFF s))).set (i * 2 + 1) (byteOfInt (andFF (shr8 s)))
        = (pre ++ sampleBytes s) ++ List.replicate (rest.length * 2) 0 := by
      rw [List.set_append_right _ _ (by omega), List.set_append_right _ _ (by omega)]
      have e0 : i * 2 - pre.length = 0 := by omega
      have e1 : i * 2 + 1 - pre.length = 1 := by omega
      rw [e0, e1]
      simp [sampleBytes]
    rw [pcm16Loop, hrep, hset, ih (i + 1) (pre ++ sampleBytes s) (by simp [sampleBytes, hpre]; omega)]
    simp

/-- The output of `pcm16MonoToBytes` in closed form: the byte pairs of the samples. -/
theorem pcm16MonoToBytes_eq (pcm : List Int) :
    pcm16MonoToBytes pcm = (pcm.map sampleBytes).flatten := by
  have h := pcm16Loop_eq pcm 0 [] rfl
  simpa [pcm16MonoToBytes] using h

theorem sampleBytes_flatten_length (pcm : List Int) :
    ((pcm.map sampleBytes).flatten).length = 2 * pcm.length := by
  induction pcm with
  | nil => rfl
  | cons s rest ih => simp [sampleBytes, ih]; omega

theorem sampleBytes_flatten_get (pcm : List Int) (i : Nat) (s : Int) (h : pcm[i]? = some s) :
    ((pcm.map sampleBytes).flatten)[2 * i]? = some (byteOfInt (andFF s)) ∧
    ((pcm.map sampleBytes).flatten)[2 * i + 1]? = some (byteOfInt (andFF (shr8 s))) := by
  induction pcm generalizing i with
  | nil => simp at h
  | cons s0 rest ih =>
    cases i with
    | zero =>
      simp only [List.getElem?_cons_zero, Option.some.injEq] at h
      subst h
      simp [sampleBytes]
    | succ j =>
      simp only [List.getElem?_cons_succ] at h
      obtain ⟨h1, h2⟩ := ih j h
      have e : 2 * (j + 1) = 2 * j + 1 + 1 := by omega
      simp only [List.map_cons, List.flatten_cons, sampleBytes, List.cons_append,
        List.nil_append, e, List.getElem?_cons_succ]
      exact ⟨h1, h2⟩

theorem byteOfInt_low (s : Int) : (byteOfInt (andFF s)).val = uint16 s % 256 := by
  simp only [byteOfInt, andFF, toByte, uint16]
  omega

theorem byteOfInt_high (s : Int) : (byteOfInt (andFF (shr8 s))).val = uint16 s / 256 := by
  simp only [byteOfInt, andFF, shr8, toByte, uint16]
  omega

theorem int16LE_sampleBytes (s : Int) (h : -32768 ≤ s ∧ s < 32768) :
    int16LE (byteOfInt (andFF s)) (byteOfInt (andFF (shr8 s))) = s := by
  have h1 := byteOfInt_low s
  have h2 := byteOfInt_high s
  simp only [int16LE, h1, h2, uint16]
  split <;> omega

theorem decodePcm16_sampleBytes (pcm : List Int) (h : ∀ s ∈ pcm, -32768 ≤ s ∧ s < 32768) :
    decodePcm16 ((pcm.map sampleBytes).flatten) = pcm := by
  induction pcm with
  | nil => rfl
  | cons s rest ih =>
    have hs := int16LE_sampleBytes s (h s (List.mem_cons_self _ _))
    have hr := ih (fun x hx => h x (List.mem_cons_of_mem _ hx))
    have e : (List.map sampleBytes (s :: rest)).flatten
        = byteOfInt (andFF s) :: byteOfInt (andFF (shr8 s)) ::
          (List.map sampleBytes rest).flatten := rfl
    rw [e, decodePcm16, hs, hr]

/-- C15: for every list of signed 16-bit samples, `pcm16MonoToBytes` returns
2 * len(samples) bytes; byte 2i holds the low 8 bits and byte 2i+1 the high 8
bits of the two's-complement value of sample i, negative samples included; and
decoding consecutive byte pairs as little-endian int16 gives back the samples. -/
theorem pcm16MonoToBytes_lossless (pcm : List Int)
    (hrange : ∀ s ∈ pcm, -32768 ≤ s ∧ s < 32768) :
    (pcm16MonoToBytes pcm).length = 2 * pcm.length ∧
    (∀ (i : Nat) (s : Int), pcm[i]? = some s →
      ∃ lo hi, (pcm16MonoToBytes pcm)[2 * i]? = some lo ∧
        (pcm16MonoToBytes pcm)[2 * i + 1]? = some hi ∧
        lo.val = uint16 s % 256 ∧ hi.val = uint16 s / 256 ∧
        int16LE lo hi = s) ∧
    decodePcm16 (pcm16MonoToBytes pcm) = pcm := by
  rw [pcm16MonoToBytes_eq]
  refine ⟨sampleBytes_flatten_length pcm, ?_, decodePcm16_sampleBytes pcm hrange⟩
  intro i s hs
  obtain ⟨h1, h2⟩ := sampleBytes_flatten_get pcm i s hs
  exact ⟨_, _, h1, h2, byteOfInt_low s, byteOfInt_high s,
    int16LE_sampleBytes s (hrange s (List.mem_iff_getElem?.mpr ⟨i, hs⟩))⟩

/-- Witness for C15: the samples 1, -2, -32768 and 32767 encode to
01 00, FE FF, 00 80, FF 7F and decode back. -/
theorem pcm16MonoToBytes_lossless_witness :
    pcm16MonoToBytes [1, -2, -32768, 32767] = [1, 0, 254, 255, 0, 128, 255, 127] ∧
    decodePcm16 (pcm16MonoToBytes [1, -2, -32768, 32767]) = [1, -2, -32768, 32767] :=
  ⟨by decide,
   (pcm16MonoToBytes_lossless [1, -2, -32768, 32767] (by decide)).2.2⟩

/-! ## `LLMProcessor.GetResponse` and `ActionRouter.ProcessToolCalls` -/

/-- C16: `LLMProcessor.GetResponse` sends exactly one `LLMResponse` per call and never
panics, so the first choice is not indexed when there is none. The response has
exactly one of Error, ToolCalls, Content set: Error when the API call fails, when
there is no choice, or when the first choice has empty content and no tool call;
ToolCalls alone when the first choice carries a tool call; Content alone
otherwise. -/
theorem getResponse_one_response (api : Except String ChatCompletionResponse) :
    ∃ r, LLMProcessor.GetResponse api = Outcome.ok [r] ∧
      ((r.Error ≠ none ∧ r.ToolCalls = [] ∧ r.Content = "") ∨
       (r.Error = none ∧ r.ToolCalls ≠ [] ∧ r.Content = "") ∨
       (r.Error = none ∧ r.ToolCalls = [] ∧ r.Content ≠ "")) ∧
      (∀ err, api = Except.error err → r.Error = some ("erreur ChatCompletion: " ++ err)) ∧
      (∀ resp, api = Except.ok resp → resp.Choices = [] → r.Error = some "réponse LLM vide") ∧
      (∀ resp c rest, api = Except.ok resp → resp.Choices = c :: rest →
        (c.Message.Content = "" → c.Message.ToolCalls = [] →
          r.Error = some "réponse LLM vide") ∧
        (c.Message.ToolCalls ≠ [] →
          r = { Content := "", ToolCalls := c.Message.ToolCalls, Error := none }) ∧
        (c.Message.ToolCalls = [] → c.Message.Content ≠ "" →
          r = { Content := c.Message.Content, ToolCalls := [], Error := none })) := by
  cases api with
  | error err =>
    refine ⟨_, rfl, Or.inl ⟨by simp, rfl, rfl⟩, ?_, ?_, ?_⟩
    · intro e he; cases he; rfl
    · intro resp he; cases he
    · intro resp c rest he; cases he
  | ok resp =>
    obtain ⟨choices⟩ := resp
    cases choices with
    | nil =>
      refine ⟨_, rfl, Or.inl ⟨by simp, rfl, rfl⟩, ?_, ?_, ?_⟩
      · intro e he; cases he
      · intro resp he _; rfl
      · intro resp c rest he hc; cases he; cases hc
    | cons c0 rest0 =>
      obtain ⟨⟨content, calls⟩⟩ := c0
      by_cases hcalls : calls = []
      · by_cases hcontent : content = ""
        · subst hcalls hcontent
          refine ⟨{ Content := "", ToolCalls := [], Error := some "réponse LLM vide" }, ?_,
            Or.inl ⟨by simp, rfl, rfl⟩, ?_, ?_, ?_⟩
          · simp [LLMProcessor.GetResponse, emptyReply]
          · intro e he; cases he
          · intro resp he hc; cases he; cases hc
          · intro resp c rest he hc
            cases he
            simp only [List.cons.injEq] at hc
            obtain ⟨rfl, rfl⟩ := hc
            exact ⟨fun _ _ => rfl, fun h => absurd rfl h, fun _ h => absurd rfl h⟩
        · subst hcalls
          refine ⟨{ Content := content, ToolCalls := [], Error := none }, ?_,
            Or.inr (Or.inr ⟨rfl, rfl, hcontent⟩), ?_, ?_, ?_⟩
          · simp [LLMProcessor.GetResponse, emptyReply, hcontent]
          · intro e he; cases he
          · intro resp he hc; cases he; cases hc
          · intro resp c rest he hc
            cases he
            simp only [List.cons.injEq] at hc
            obtain ⟨rfl, rfl⟩ := hc
            exact ⟨fun h => absurd h hcontent, fun h => absurd rfl h, fun _ _ => rfl⟩
      · have hlen : calls.length ≠ 0 := fun h => hcalls (List.length_eq_zero.mp h)
        have hpos : calls.length > 0 := Nat.pos_of_ne_zero hlen
        refine ⟨{ Content := "", ToolCalls := calls, Error := none }, ?_,
          Or.inr (Or.inl ⟨rfl, hcalls, rfl⟩), ?_, ?_, ?_⟩
        · simp [LLMProcessor.GetResponse, emptyReply, hlen, hpos]
        · intro e he; cases he
        · intro resp he hc; cases he; cases hc
        · intro resp c rest he hc
          cases he
          simp only [List.cons.injEq] at hc
          obtain ⟨rfl, rfl⟩ := hc
          exact ⟨fun _ h => absurd h hcalls, fun _ => rfl, fun h => absurd h hcalls⟩

/-- Witness for C16: a failed call, an empty choice list, a choice with a tool call
and a choice with text only. -/
theorem getResponse_one_response_witness :
    (∃ r, LLMProcessor.GetResponse (Except.error "timeout") = Outcome.ok [r] ∧
      r.Error = some ("erreur ChatCompletion: " ++ "timeout")) ∧
    (∃ r, LLMProcessor.GetResponse (Except.ok { Choices := [] }) = Outcome.ok [r] ∧
      r.Error = some "réponse LLM vide") ∧
    LLMProcessor.GetResponse
        (Except.ok { Choices := [{ Message := { Content := "bonjour", ToolCalls := [exampleCall] } }] })
      = Outcome.ok [{ Content := "", ToolCalls := [exampleCall], Error := none }] ∧
    LLMProcessor.GetResponse
        (Except.ok { Choices := [{ Message := { Content := "bonjour", ToolCalls := [] } }] })
      = Outcome.ok [{ Content := "bonjour", ToolCalls := [], Error := none }] := by
  refine ⟨?_, ?_, ?_, ?_⟩
  · obtain ⟨r, h, -, h1, -⟩ := getResponse_one_response (Except.error "timeout")
    exact ⟨r, h, h1 "timeout" rfl⟩
  · obtain ⟨r, h, -, -, h2, -⟩ := getResponse_one_response (Except.ok { Choices := [] })
    exact ⟨r, h, h2 _ rfl rfl⟩
  · obtain ⟨r, h, -, -, -, h3⟩ := getResponse_one_response
      (Except.ok { Choices := [{ Message := { Content := "bonjour", ToolCalls := [exampleCall] } }] })
    rw [h, (h3 _ _ _ rfl rfl).2.1 (by simp)]
  · obtain ⟨r, h, -, -, -, h3⟩ := getResponse_one_response
      (Except.ok { Choices := [{ Message := { Content := "bonjour", ToolCalls := [] } }] })
    rw [h, (h3 _ _ _ rfl rfl).2.2 rfl (by decide)]

theorem foldl_processToolCall (encodeString : String → String) (toolCalls : List ToolCall)
    (results : List ToolResult) :
    toolCalls.foldl (processToolCall encodeString) results
      = results ++ (toolCalls.filter (fun c => decide (c.Type_ = ToolTypeFunction))).map
          (fun c => { ToolCallID := c.ID,
                      Content := (jsonMarshal encodeString
                        (responseData c.Function.Name c.ID)).1 }) := by
  induction toolCalls generalizing results with
  | nil => simp
  | cons c rest ih =>
    rw [List.foldl_cons, ih]
    by_cases ht : c.Type_ = ToolTypeFunction
    · simp [processToolCall, ht, jsonMarshal, List.filter_cons]
    · simp [processToolCall, ht, List.filter_cons]

/-- The JSON text `json.Marshal` returns for the response of each tool name: the
keys in sorted order, each key and value written by the string encoder. -/
theorem jsonMarshal_responseData (enc : String → String) (name id : String) :
    (jsonMarshal enc (responseData name id)).1
      = if name = "getCurrentWeather" then
          "\x7b" ++ enc "description" ++ ":" ++ enc "Partiellement nuageux" ++ ","
            ++ enc "location" ++ ":" ++ enc "Paris" ++ ","
            ++ enc "temperature" ++ ":" ++ enc "15" ++ ","
            ++ enc "unit" ++ ":" ++ enc "celsius" ++ "\x7d"
        else if name = "createDiscordChannel" then
          "\x7b" ++ enc "channelName" ++ ":" ++ enc ("simulated-channel-" ++ id) ++ ","
            ++ enc "message" ++ ":" ++ enc "Canal simulé créé avec succès." ++ ","
            ++ enc "status" ++ ":" ++ enc "success" ++ "\x7d"
        else
          "\x7b" ++ enc "message" ++ ":"
            ++ enc ("Outil '" ++ name ++ "' non reconnu ou simulation non implémentée.") ++ ","
            ++ enc "status" ++ ":" ++ enc "error" ++ "\x7d" := by
  have k1 : keyLE "unit" "description" = false := by decide
  have k2 : keyLE "temperature" "description" = false := by decide
  have k3 : keyLE "location" "description" = false := by decide
  have k4 : keyLE "temperature" "unit" = true := by decide
  have k5 : keyLE "location" "temperature" = true := by decide
  have k6 : keyLE "status" "message" = false := by decide
  have k7 : keyLE "channelName" "message" = true := by decide
  have k8 : keyLE "status" "channelName" = false := by decide
  by_cases h1 : name = "getCurrentWeather"
  · simp [jsonMarshal, responseData, h1, List.insertionSort, List.orderedInsert, k1, k2, k3, k4,
      k5, String.intercalate, String.intercalate.go, String.append_assoc]
  · by_cases h2 : name = "createDiscordChannel"
    · simp [jsonMarshal, responseData, h1, h2, List.insertionSort, List.orderedInsert, k6, k7, k8,
        String.intercalate, String.intercalate.go, String.append_assoc]
    · simp [jsonMarshal, responseData, h1, h2, List.insertionSort, List.orderedInsert, k6,
        String.intercalate, String.intercalate.go, String.append_assoc]

theorem processToolCalls_eq (encodeString : String → String) (toolCalls : List ToolCall) :
    ActionRouter.ProcessToolCalls encodeString toolCalls
      = (toolCalls.filter (fun c => decide (c.Type_ = "function"))).map
          (fun c => { ToolCallID := c.ID,
                      Content := (jsonMarshal encodeString
                        (responseData c.Function.Name c.ID)).1 }) := by
  unfold ActionRouter.ProcessToolCalls
  split
  · rename_i h
    rw [List.length_eq_zero.mp h]
    rfl
  · rw [foldl_processToolCall]
    rfl

/-- C17: `ActionRouter.ProcessToolCalls` is an order-preserving map over the calls of
type "function": the result has, in the order of the calls, one entry for each
call whose type is "function" and none for the others; the entry's ToolCallID is
the call's ID and its Content is the JSON text written out below, which is
fixed by the call's function name and ID alone, so two calls that differ only in
their Arguments give the same result; the empty list gives the empty result; and
for a name other than getCurrentWeather and createDiscordChannel the Content is
the JSON object with the two members "message" and "status", the latter with the
value "error". -/
theorem processToolCalls_map (encodeString : String → String) (toolCalls : List ToolCall) :
    ActionRouter.ProcessToolCalls encodeString toolCalls
      = (toolCalls.filter (fun c => decide (c.Type_ = "function"))).map
          (fun c =>
            { ToolCallID := c.ID,
              Content :=
                if c.Function.Name = "getCurrentWeather" then
                  "\x7b" ++ encodeString "description" ++ ":"
                    ++ encodeString "Partiellement nuageux" ++ ","
                    ++ encodeString "location" ++ ":" ++ encodeString "Paris" ++ ","
                    ++ encodeString "temperature" ++ ":" ++ encodeString "15" ++ ","
                    ++ encodeString "unit" ++ ":" ++ encodeString "celsius" ++ "\x7d"
                else if c.Function.Name = "createDiscordChannel" then
                  "\x7b" ++ encodeString "channelName" ++ ":"
                    ++ encodeString ("simulated-channel-" ++ c.ID) ++ ","
                    ++ encodeString "message" ++ ":"
                    ++ encodeString "Canal simulé créé avec succès." ++ ","
                    ++ encodeString "status" ++ ":" ++ encodeString "success" ++ "\x7d"
                else
                  "\x7b" ++ encodeString "message" ++ ":"
                    ++ encodeString ("Outil '" ++ c.Function.Name
                        ++ "' non reconnu ou simulation non implémentée.") ++ ","
                    ++ encodeString "status" ++ ":" ++ encodeString "error" ++ "\x7d" }) ∧
    ActionRouter.ProcessToolCalls encodeString [] = [] ∧
    (∀ (c : ToolCall) (arguments : String),
      ActionRouter.ProcessToolCalls encodeString
          [{ c with Function := { c.Function with Arguments := arguments } }]
        = ActionRouter.ProcessToolCalls encodeString [c]) ∧
    (∀ c : ToolCall, c.Type_ = "function" → c.Function.Name ≠ "getCurrentWeather" →
      c.Function.Name ≠ "createDiscordChannel" →
      ActionRouter.ProcessToolCalls encodeString [c]
        = [{ ToolCallID := c.ID,
             Content := "\x7b" ++ encodeString "message" ++ ":"
               ++ encodeString ("Outil '" ++ c.Function.Name
                   ++ "' non reconnu ou simulation non implémentée.") ++ ","
               ++ encodeString "status" ++ ":" ++ encodeString "error" ++ "\x7d" }] ∧
      (encodeString "status" = "\"status\"" → encodeString "error" = "\"error\"" →
        ActionRouter.ProcessToolCalls encodeString [c]
          = [{ ToolCallID := c.ID,
               Content := "\x7b" ++ encodeString "message" ++ ":"
                 ++ encodeString ("Outil '" ++ c.Function.Name
                     ++ "' non reconnu ou simulation non implémentée.") ++ ","
                 ++ "\"status\"" ++ ":" ++ "\"error\"" ++ "\x7d" }])) ∧
    (∀ name id : String, name ≠ "getCurrentWeather" → name ≠ "createDiscordChannel" →
      (responseData name id).lookup "status" = some "error" ∧
      (responseData name id).map Prod.fst = ["status", "message"]) := by
  have hmain : ∀ l : List ToolCall, ActionRouter.ProcessToolCalls encodeString l
      = (l.filter (fun c => decide (c.Type_ = "function"))).map
          (fun c =>
            { ToolCallID := c.ID,
              Content :=
                if c.Function.Name = "getCurrentWeather" then
                  "\x7b" ++ encodeString "description" ++ ":"
                    ++ encodeString "Partiellement nuageux" ++ ","
                    ++ encodeString "location" ++ ":" ++ encodeString "Paris" ++ ","
                    ++ encodeString "temperature" ++ ":" ++ encodeString "15" ++ ","
                    ++ encodeString "unit" ++ ":" ++ encodeString "celsius" ++ "\x7d"
                else if c.Function.Name = "createDiscordChannel" then
                  "\x7b" ++ encodeString "channelName" ++ ":"
                    ++ encodeString ("simulated-channel-" ++ c.ID) ++ ","
                    ++ encodeString "message" ++ ":"
                    ++ encodeString "Canal simulé créé avec succès." ++ ","
                    ++ encodeString "status" ++ ":" ++ encodeString "success" ++ "\x7d"
                else
                  "\x7b" ++ encodeString "message" ++ ":"
                    ++ encodeString ("Outil '" ++ c.Function.Name
                        ++ "' non reconnu ou simulation non implémentée.") ++ ","
                    ++ encodeString "status" ++ ":" ++ encodeString "error" ++ "\x7d" }) := by
    intro l
    rw [processToolCalls_eq]
    apply List.map_congr_left
    intro c _
    rw [jsonMarshal_responseData]
  have hunknown : ∀ c : ToolCall, c.Type_ = "function" →
      c.Function.Name ≠ "getCurrentWeather" → c.Function.Name ≠ "createDiscordChannel" →
      ActionRouter.ProcessToolCalls encodeString [c]
        = [{ ToolCallID := c.ID,
             Content := "\x7b" ++ encodeString "message" ++ ":"
               ++ encodeString ("Outil '" ++ c.Function.Name
                   ++ "' non reconnu ou simulation non implémentée.") ++ ","
               ++ encodeString "status" ++ ":" ++ encodeString "error" ++ "\x7d" }] := by
    intro c ht h1 h2
    rw [hmain]
    simp [List.filter_cons, ht, h1, h2]
  refine ⟨hmain toolCalls, rfl, ?_, ?_, ?_⟩
  · intro c arguments
    rw [hmain, hmain]
    by_cases ht : c.Type_ = "function" <;> simp [List.filter_cons, ht]
  · intro c ht h1 h2
    refine ⟨hunknown c ht h1 h2, ?_⟩
    intro hs he
    rw [hunknown c ht h1 h2, hs, he]
  · intro name id h1 h2
    simp [responseData, h1, h2, List.lookup]

/-- Witness for C17: an unknown tool, a call of another type and the weather tool,
with strings written between double quotes. The call of another type gives no
entry, the order is kept, and the unknown tool gives the object with status
"error". -/
theorem processToolCalls_map_witness :
    ActionRouter.ProcessToolCalls quoteString
        [{ ID := "call-1", Type_ := "function",
           Function := { Name := "openDoor", Arguments := "front" } },
         { ID := "call-2", Type_ := "retrieval",
           Function := { Name := "getCurrentWeather", Arguments := "" } },
         { ID := "call-3", Type_ := "function",
           Function := { Name := "getCurrentWeather", Arguments := "Lyon" } }]
      = [{ ToolCallID := "call-1",
           Content := "\x7b\"message\":\"Outil 'openDoor' non reconnu ou simulation non implémentée.\",\"status\":\"error\"\x7d" },
         { ToolCallID := "call-3",
           Content := "\x7b\"description\":\"Partiellement nuageux\",\"location\":\"Paris\",\"temperature\":\"15\",\"unit\":\"celsius\"\x7d" }] ∧
    ActionRouter.ProcessToolCalls quoteString
        [{ ID := "call-1", Type_ := "function",
           Function := { Name := "openDoor", Arguments := "front" } }]
      = [{ ToolCallID := "call-1",
           Content := "\x7b" ++ quoteString "message" ++ ":"
             ++ quoteString ("Outil '" ++ "openDoor"
                 ++ "' non reconnu ou simulation non implémentée.") ++ ","
             ++ "\"status\"" ++ ":" ++ "\"error\"" ++ "\x7d" }] := by
  constructor
  · rw [(processToolCalls_map quoteString _).1]
    decide
  · exact ((processToolCalls_map quoteString [])).2.2.2.1
      { ID := "call-1", Type_ := "function",
        Function := { Name := "openDoor", Arguments := "front" } } rfl (by decide) (by decide)
      |>.2 rfl rfl

/-! ## Speech Segmentation Gate -/

theorem startsWithRun_mono (pred : Frame → Bool) (k j : Nat) (fs : List Frame) (h : k ≤ j)
    (hj : startsWithRun pred j fs = true) : startsWithRun pred k fs = true := by
  induction k generalizing j fs with
  | zero => rfl
  | succ k ih =>
    cases j with
    | zero => omega
    | succ j =>
      cases fs with
      | nil => simp [startsWithRun] at hj
      | cons f fs =>
        simp only [startsWithRun, Bool.and_eq_true] at hj ⊢
        exact ⟨hj.1, ih j fs (by omega) hj.2⟩

theorem hasRun_of_startsWithRun (pred : Frame → Bool) (n : Nat) (fs : List Frame)
    (h : startsWithRun pred n fs = true) : hasRun pred n fs = true := by
  cases fs with
  | nil => simpa [hasRun] using h
  | cons f fs => simp [hasRun, h]

theorem startsWithRun_append (pred : Frame → Bool) (k : Nat) (xs ys : List Frame)
    (h : startsWithRun pred k xs = true) : startsWithRun pred k (xs ++ ys) = true := by
  induction k generalizing xs with
  | zero => rfl
  | succ k ih =>
    cases xs with
    | nil => simp [startsWithRun] at h
    | cons f fs =>
      simp only [startsWithRun, Bool.and_eq_true, List.cons_append] at h ⊢
      exact ⟨h.1, ih fs h.2⟩

theorem hasRun_append_right (pred : Frame → Bool) (n : Nat) (xs ys : List Frame)
    (h : hasRun pred n ys = true) : hasRun pred n (xs ++ ys) = true := by
  induction xs with
  | nil => simpa using h
  | cons f fs ih => simp [hasRun, ih]

theorem hasRun_append_left (pred : Frame → Bool) (n : Nat) (xs ys : List Frame)
    (h : hasRun pred n xs = true) : hasRun pred n (xs ++ ys) = true := by
  induction xs with
  | nil =>
    apply hasRun_of_startsWithRun
    have h0 : startsWithRun pred n [] = true := by simpa [hasRun] using h
    exact startsWithRun_append pred n [] ys h0
  | cons f fs ih =>
    simp only [hasRun, Bool.or_eq_true, List.cons_append] at h ⊢
    rcases h with h | h
    · exact Or.inl (startsWithRun_append pred n (f :: fs) ys h)
    · exact Or.inr (ih h)

theorem startsWithRun_of_all (pred : Frame → Bool) (xs : List Frame)
    (h : ∀ f ∈ xs, pred f = true) : startsWithRun pred xs.length xs = true := by
  induction xs with
  | nil => rfl
  | cons f fs ih =>
    simp only [List.length_cons, startsWithRun, Bool.and_eq_true]
    exact ⟨h f (List.mem_cons_self _ _), ih (fun x hx => h x (List.mem_cons_of_mem _ hx))⟩

/-- When no run of `n` ends inside `xs ++ ys` and `ys` is a run of `n - 1`, the
sequence `xs` is empty or ends with a frame that does not satisfy `pred`. -/
theorem last_not_pred (pred : Frame → Bool) (n : Nat) (q ys : List Frame) (v : Frame)
    (hn : ys.length + 1 = n) (hys : ∀ f ∈ ys, pred f = true)
    (h : hasRun pred n ((q ++ [v]) ++ ys) = false) : pred v = false := by
  cases hv : pred v with
  | false => rfl
  | true =>
    have hall : ∀ f ∈ v :: ys, pred f = true := by
      intro f hf
      rcases List.mem_cons.mp hf with rfl | hf
      · exact hv
      · exact hys f hf
    have hs := startsWithRun_of_all pred (v :: ys) hall
    rw [List.length_cons, hn] at hs
    have hr := hasRun_append_right pred n q (v :: ys) (hasRun_of_startsWithRun pred n _ hs)
    rw [List.append_assoc, List.singleton_append, hr] at h
    exact absurd h (by simp)

theorem Gate.run_append (sp si : Nat) (classify : Frame → Bool) (g : Gate) (xs ys : List Frame) :
    Gate.run sp si classify g (xs ++ ys)
      = ((Gate.run sp si classify (Gate.run sp si classify g xs).1 ys).1,
         (Gate.run sp si classify g xs).2
           ++ (Gate.run sp si classify (Gate.run sp si classify g xs).1 ys).2) := by
  induction xs generalizing g with
  | nil => simp [Gate.run]
  | cons f fs ih =>
    rw [List.cons_append]
    cases hstep : Gate.step sp si classify g f with
    | mk g1 out =>
      cases out with
      | none => simp only [Gate.run, hstep]; exact ih g1
      | some u => simp only [Gate.run, hstep, ih g1, List.cons_append]

/-- While waiting with `c` voiced frames counted, the Gate starts recording during
`fs` exactly when `fs` begins with the `n - c` voiced frames still needed or holds
`n` consecutive voiced frames further on. -/
theorem Gate.recording_iff (sp si : Nat) (classify : Frame → Bool) (hsp : 0 < sp)
    (fs : List Frame) (g : Gate) (hmode : g.mode = GateMode.Waiting) (hc : g.speechCount < sp) :
    GateMode.Recording ∈ Gate.modes sp si classify g fs ↔
      (startsWithRun classify (sp - g.speechCount) fs = true ∨ hasRun classify sp fs = true) := by
  induction fs generalizing g with
  | nil =>
    obtain ⟨k, hk⟩ : ∃ k, sp - g.speechCount = k + 1 := ⟨sp - g.speechCount - 1, by omega⟩
    obtain ⟨j, hj⟩ : ∃ j, sp = j + 1 := ⟨sp - 1, by omega⟩
    rw [hk]
    simp [Gate.modes, startsWithRun, hasRun, hj]
  | cons f fs ih =>
    obtain ⟨mode, c, s, p, u⟩ := g
    simp only at hmode hc
    subst hmode
    obtain ⟨k, hk⟩ : ∃ k, sp - c = k + 1 := ⟨sp - c - 1, by omega⟩
    obtain ⟨j, hj⟩ : ∃ j, sp = j + 1 := ⟨sp - 1, by omega⟩
    cases hf : classify f with
    | true =>
      by_cases hreach : sp ≤ c + 1
      · have hk0 : k = 0 := by omega
        simp [Gate.modes, Gate.step, hf, hreach, hk, hk0, startsWithRun]
      · have hstep : Gate.step sp si classify
            { mode := GateMode.Waiting, speechCount := c, silenceCount := s, preRoll := p,
              utterance := u } f
            = ({ mode := GateMode.Waiting, speechCount := c + 1, silenceCount := s,
                 preRoll := p ++ [f], utterance := u }, none) := by
          simp [Gate.step, hf, hreach]
        have hih := ih { mode := GateMode.Waiting, speechCount := c + 1, silenceCount := s,
                         preRoll := p ++ [f], utterance := u } rfl (by simp only; omega)
        have hk' : sp - (c + 1) = k := by omega
        simp only [hk'] at hih
        simp only [Gate.modes, hstep, List.mem_cons, hk, startsWithRun, hf, Bool.true_and,
          hasRun, Bool.or_eq_true]
        rw [hih]
        constructor
        · rintro (h | h | h)
          · cases h
          · exact Or.inl h
          · exact Or.inr (Or.inr h)
        · rintro (h | h | h)
          · exact Or.inr (Or.inl h)
          · right; left
            rw [hj] at h
            simp only [startsWithRun, hf, Bool.true_and] at h
            exact startsWithRun_mono classify k j fs (by omega) h
          · exact Or.inr (Or.inr h)
    | false =>
      have hstep : Gate.step sp si classify
          { mode := GateMode.Waiting, speechCount := c, silenceCount := s, preRoll := p,
            utterance := u } f
          = ({ mode := GateMode.Waiting, speechCount := 0, silenceCount := s, preRoll := [],
               utterance := u }, none) := by
        simp [Gate.step, hf]
      have hih := ih { mode := GateMode.Waiting, speechCount := 0, silenceCount := s,
                       preRoll := [], utterance := u } rfl hsp
      simp only [Nat.sub_zero] at hih
      simp only [Gate.modes, hstep, List.mem_cons, hk, startsWithRun, hf, Bool.false_and,
        hasRun, Bool.or_eq_true, Bool.false_eq_true, false_or]
      rw [hih]
      constructor
      · rintro (h | h | h)
        · cases h
        · exact Or.inr (hasRun_of_startsWithRun classify sp fs h)
        · exact Or.inr h
      · rintro (h | h)
        · rw [hj] at h; simp [startsWithRun, hf] at h
        · exact Or.inr (Or.inr h)

/-- While no run of voiced frames completes, the Gate keeps waiting and emits
nothing; only its speech counter and its pre-roll change. -/
theorem Gate.run_waiting (sp si : Nat) (classify : Frame → Bool) (hsp : 0 < sp)
    (fs : List Frame) (g : Gate) (hmode : g.mode = GateMode.Waiting) (hc : g.speechCount < sp)
    (h1 : startsWithRun classify (sp - g.speechCount) fs = false)
    (h2 : hasRun classify sp fs = false) :
    ∃ c p, c < sp ∧
      Gate.run sp si classify g fs = ({ g with speechCount := c, preRoll := p }, []) := by
  induction fs generalizing g with
  | nil => exact ⟨g.speechCount, g.preRoll, hc, rfl⟩
  | cons f fs ih =>
    obtain ⟨mode, c, s, p, u⟩ := g
    simp only at hmode hc h1
    subst hmode
    obtain ⟨k, hk⟩ : ∃ k, sp - c = k + 1 := ⟨sp - c - 1, by omega⟩
    simp only [hasRun, Bool.or_eq_false_iff] at h2
    cases hf : classify f with
    | true =>
      rw [hk] at h1
      simp only [startsWithRun, hf, Bool.true_and] at h1
      by_cases hreach : sp ≤ c + 1
      · have hk0 : k = 0 := by omega
        rw [hk0] at h1
        simp [startsWithRun] at h1
      · have hk' : sp - (c + 1) = k := by omega
        obtain ⟨c', p', hc', hrun⟩ := ih
          { mode := GateMode.Waiting, speechCount := c + 1, silenceCount := s,
            preRoll := p ++ [f], utterance := u } rfl (by simp only; omega)
          (by simp only [hk']; exact h1) h2.2
        refine ⟨c', p', hc', ?_⟩
        simp only [Gate.run, Gate.step, hf, hreach, if_true, if_false]
        exact hrun
    | false =>
      have h3 : startsWithRun classify sp fs = false := by
        cases h : startsWithRun classify sp fs with
        | false => rfl
        | true => rw [hasRun_of_startsWithRun classify sp fs h] at h2; exact absurd h2.2 (by simp)
      obtain ⟨c', p', hc', hrun⟩ := ih
        { mode := GateMode.Waiting, speechCount := 0, silenceCount := s,
          preRoll := [], utterance := u } rfl hsp (by simpa using h3) h2.2
      refine ⟨c', p', hc', ?_⟩
      simp only [Gate.run, Gate.step, hf, Bool.false_eq_true, if_false]
      exact hrun

/-- A run of voiced frames that brings the speech counter to `sp` makes the Gate
record, with the pre-roll and these frames as the start of the Utterance. -/
theorem Gate.run_voiced (sp si : Nat) (classify : Frame → Bool) (vs : List Frame) (g : Gate)
    (hmode : g.mode = GateMode.Waiting) (hv : ∀ f ∈ vs, classify f = true) (hne : vs ≠ [])
    (hlen : g.speechCount + vs.length = sp) :
    Gate.run sp si classify g vs
      = ({ g with mode := GateMode.Recording, speechCount := sp, preRoll := [],
                  utterance := g.preRoll ++ vs }, []) := by
  induction vs generalizing g with
  | nil => exact absurd rfl hne
  | cons f fs ih =>
    obtain ⟨mode, c, s, p, u⟩ := g
    simp only at hmode hlen
    subst hmode
    have hf : classify f = true := hv f (List.mem_cons_self _ _)
    cases fs with
    | nil =>
      simp only [List.length_singleton] at hlen
      simp [Gate.run, Gate.step, hf, hlen]
    | cons f2 fs2 =>
      have hreach : ¬ sp ≤ c + 1 := by simp only [List.length_cons] at hlen; omega
      have hrun := ih
        { mode := GateMode.Waiting, speechCount := c + 1, silenceCount := s,
          preRoll := p ++ [f], utterance := u } rfl
        (fun x hx => hv x (List.mem_cons_of_mem _ hx)) (by simp)
        (by simp only [List.length_cons] at hlen ⊢; omega)
      rw [Gate.run]
      simp only [Gate.step, hf, hreach, if_true, if_false]
      rw [hrun]
      simp

/-- While no run of silent frames completes, the Gate keeps recording, appends
every frame to the Utterance and emits nothing. -/
theorem Gate.run_recording (sp si : Nat) (classify : Frame → Bool) (hsi : 0 < si)
    (xs : List Frame) (g : Gate) (hmode : g.mode = GateMode.Recording)
    (hs : g.silenceCount < si)
    (h1 : startsWithRun (fun f => !classify f) (si - g.silenceCount) xs = false)
    (h2 : hasRun (fun f => !classify f) si xs = false) :
    ∃ s', s' < si ∧
      Gate.run sp si classify g xs
        = ({ g with utterance := g.utterance ++ xs, silenceCount := s' }, []) := by
  induction xs generalizing g with
  | nil => exact ⟨g.silenceCount, hs, by simp [Gate.run]⟩
  | cons f fs ih =>
    obtain ⟨mode, c, s, p, u⟩ := g
    simp only at hmode hs h1
    subst hmode
    obtain ⟨k, hk⟩ : ∃ k, si - s = k + 1 := ⟨si - s - 1, by omega⟩
    simp only [hasRun, Bool.or_eq_false_iff] at h2
    have h3 : startsWithRun (fun f => !classify f) si fs = false := by
      cases h : startsWithRun (fun f => !classify f) si fs with
      | false => rfl
      | true =>
        rw [hasRun_of_startsWithRun (fun f => !classify f) si fs h] at h2
        exact absurd h2.2 (by simp)
    cases hf : classify f with
    | true =>
      obtain ⟨s', hs', hrun⟩ := ih
        { mode := GateMode.Recording, speechCount := c, silenceCount := 0,
          preRoll := p, utterance := u ++ [f] } rfl hsi (by simpa using h3) h2.2
      refine ⟨s', hs', ?_⟩
      rw [Gate.run]
      simp only [Gate.step, hf, if_true]
      rw [hrun]
      simp
    | false =>
      rw [hk] at h1
      simp only [startsWithRun, hf, Bool.not_false, Bool.true_and] at h1
      have hreach : ¬ si ≤ s + 1 := by
        intro hle
        have hk0 : k = 0 := by omega
        rw [hk0] at h1
        simp [startsWithRun] at h1
      have hk' : si - (s + 1) = k := by omega
      obtain ⟨s', hs', hrun⟩ := ih
        { mode := GateMode.Recording, speechCount := c, silenceCount := s + 1,
          preRoll := p, utterance := u ++ [f] } rfl (by simp only; omega)
        (by simp only [hk']; exact h1) h2.2
      refine ⟨s', hs', ?_⟩
      rw [Gate.run]
      simp only [Gate.step, hf, hreach, Bool.false_eq_true, if_false]
      rw [hrun]
      simp

/-- A run of silent frames that brings the silence counter to `si` makes the Gate
emit the Utterance, these frames included, and wait again with cleared counters. -/
theorem Gate.run_silent (sp si : Nat) (classify : Frame → Bool) (ss : List Frame) (g : Gate)
    (hmode : g.mode = GateMode.Recording) (hv : ∀ f ∈ ss, classify f = false) (hne : ss ≠ [])
    (hlen : g.silenceCount + ss.length = si) :
    Gate.run sp si classify g ss
      = ({ g with mode := GateMode.Waiting, speechCount := 0, silenceCount := 0,
                  utterance := [] }, [g.utterance ++ ss]) := by
  induction ss generalizing g with
  | nil => exact absurd rfl hne
  | cons f fs ih =>
    obtain ⟨mode, c, s, p, u⟩ := g
    simp only at hmode hlen
    subst hmode
    have hf : classify f = false := hv f (List.mem_cons_self _ _)
    cases fs with
    | nil =>
      simp only [List.length_singleton] at hlen
      simp [Gate.run, Gate.step, hf, hlen]
    | cons f2 fs2 =>
      have hreach : ¬ si ≤ s + 1 := by simp only [List.length_cons] at hlen; omega
      have hrun := ih
        { mode := GateMode.Recording, speechCount := c, silenceCount := s + 1,
          preRoll := p, utterance := u ++ [f] } rfl
        (fun x hx => hv x (List.mem_cons_of_mem _ hx)) (by simp)
        (by simp only [List.length_cons] at hlen ⊢; omega)
      rw [Gate.run]
      simp only [Gate.step, hf, hreach, Bool.false_eq_true, if_false]
      rw [hrun]
      simp

/-- Frames that hold no complete run of voiced frames, followed by the first such
run minus its last frame, leave the Gate in its initial state. -/
theorem Gate.run_quiet (sp si : Nat) (classify : Frame → Bool) (hsp : 0 < sp)
    (quiet pre : List Frame) (hlen : pre.length = sp) (hpre : ∀ f ∈ pre, classify f = true)
    (hfirst : hasRun classify sp (quiet ++ pre.dropLast) = false) :
    Gate.run sp si classify Gate.init quiet = (Gate.init, []) := by
  rcases List.eq_nil_or_concat quiet with rfl | ⟨q, v, rfl⟩
  · rfl
  · rw [List.concat_eq_append] at hfirst ⊢
    have hv : classify v = false :=
      last_not_pred classify sp q pre.dropLast v (by rw [List.length_dropLast]; omega)
        (fun f hf => hpre f (List.mem_of_mem_dropLast hf)) hfirst
    have hq : hasRun classify sp q = false := by
      cases h : hasRun classify sp q with
      | false => rfl
      | true =>
        have := hasRun_append_left classify sp q ([v] ++ pre.dropLast) h
        rw [← List.append_assoc, hfirst] at this
        exact absurd this (by simp)
    have hq1 : startsWithRun classify (sp - Gate.init.speechCount) q = false := by
      cases h : startsWithRun classify (sp - Gate.init.speechCount) q with
      | false => rfl
      | true =>
        have h' : startsWithRun classify sp q = true := by simpa [Gate.init] using h
        rw [hasRun_of_startsWithRun classify sp q h'] at hq
        exact absurd hq (by simp)
    obtain ⟨c, p, -, hrun⟩ := Gate.run_waiting sp si classify hsp q Gate.init rfl hsp hq1 hq
    rw [Gate.run_append, hrun]
    simp [Gate.run, Gate.step, Gate.init, hv]

/-- After the transition, frames that hold no complete run of silent frames,
followed by the first such run minus its last frame, are all appended to the
Utterance and leave the silence counter at zero. -/
theorem Gate.run_body (sp si : Nat) (classify : Frame → Bool) (hsi : 0 < si)
    (body sil : List Frame) (g : Gate) (hmode : g.mode = GateMode.Recording)
    (hs : g.silenceCount = 0) (hlen : sil.length = si) (hsil : ∀ f ∈ sil, classify f = false)
    (hclose : hasRun (fun f => !classify f) si (body ++ sil.dropLast) = false) :
    Gate.run sp si classify g body = ({ g with utterance := g.utterance ++ body }, []) := by
  obtain ⟨mode, c, s, p, u⟩ := g
  simp only at hmode hs
  subst hmode hs
  rcases List.eq_nil_or_concat body with rfl | ⟨b, v, rfl⟩
  · simp [Gate.run]
  · rw [List.concat_eq_append] at hclose ⊢
    have hv0 : (fun f => !classify f) v = false :=
      last_not_pred (fun f => !classify f) si b sil.dropLast v
        (by rw [List.length_dropLast]; omega)
        (fun f hf => by simp [hsil f (List.mem_of_mem_dropLast hf)]) hclose
    have hv : classify v = true := by simpa using hv0
    have hb : hasRun (fun f => !classify f) si b = false := by
      cases h : hasRun (fun f => !classify f) si b with
      | false => rfl
      | true =>
        have := hasRun_append_left (fun f => !classify f) si b ([v] ++ sil.dropLast) h
        rw [← List.append_assoc, hclose] at this
        exact absurd this (by simp)
    have hb1 : startsWithRun (fun f => !classify f) (si - 0) b = false := by
      cases h : startsWithRun (fun f => !classify f) (si - 0) b with
      | false => rfl
      | true =>
        have h' : startsWithRun (fun f => !classify f) si b = true := by simpa using h
        rw [hasRun_of_startsWithRun (fun f => !classify f) si b h'] at hb
        exact absurd hb (by simp)
    obtain ⟨s', -, hrun⟩ := Gate.run_recording sp si classify hsi b
      { mode := GateMode.Recording, speechCount := c, silenceCount := 0, preRoll := p,
        utterance := u } rfl hsi hb1 hb
    rw [Gate.run_append, hrun]
    simp [Gate.run, Gate.step, hv]

/-- One complete Utterance: silence or short bursts, the first run of `sp` voiced
frames, more frames, and the first run of `si` silent frames after it. -/
theorem Gate.run_utterance (sp si : Nat) (classify : Frame → Bool) (hsp : 0 < sp) (hsi : 0 < si)
    (quiet pre body sil rest : List Frame)
    (hpreLen : pre.length = sp) (hpre : ∀ f ∈ pre, classify f = true)
    (hfirst : hasRun classify sp (quiet ++ pre.dropLast) = false)
    (hsilLen : sil.length = si) (hsil : ∀ f ∈ sil, classify f = false)
    (hclose : hasRun (fun f => !classify f) si (body ++ sil.dropLast) = false) :
    Gate.run sp si classify Gate.init (quiet ++ pre ++ body ++ sil ++ rest)
      = ((Gate.run sp si classify Gate.init rest).1,
         (pre ++ body ++ sil) :: (Gate.run sp si classify Gate.init rest).2) := by
  have hpne : pre ≠ [] := by intro h; rw [h] at hpreLen; simp at hpreLen; omega
  have hsne : sil ≠ [] := by intro h; rw [h] at hsilLen; simp at hsilLen; omega
  have h1 := Gate.run_quiet sp si classify hsp quiet pre hpreLen hpre hfirst
  have h2 := Gate.run_voiced sp si classify pre Gate.init rfl hpre hpne
    (by simp [Gate.init, hpreLen])
  have h3 := Gate.run_body sp si classify hsi body sil
    { Gate.init with mode := GateMode.Recording, speechCount := sp, preRoll := [],
                     utterance := Gate.init.preRoll ++ pre } rfl rfl hsilLen hsil hclose
  have h4 := Gate.run_silent sp si classify sil
    { Gate.init with mode := GateMode.Recording, speechCount := sp, preRoll := [],
                     utterance := Gate.init.preRoll ++ pre ++ body } rfl hsil hsne
    (by simp [Gate.init, hsilLen])
  simp only [Gate.init, List.nil_append] at h1 h2 h3 h4 ⊢
  rw [Gate.run_append, Gate.run_append, Gate.run_append, Gate.run_append, h1]
  simp only [h2, h3, h4, List.nil_append, List.append_nil, List.singleton_append]

theorem hasRun_false_of_length_lt (pred : Frame → Bool) (n : Nat) (xs : List Frame)
    (h : xs.length < n) : hasRun pred n xs = false := by
  have hs : ∀ (k : Nat) (ys : List Frame), ys.length < k → startsWithRun pred k ys = false := by
    intro k
    induction k with
    | zero => intro ys hy; omega
    | succ k ih =>
      intro ys hy
      cases ys with
      | nil => rfl
      | cons y ys =>
        simp only [startsWithRun, Bool.and_eq_false_imp]
        intro _
        exact ih ys (by simp only [List.length_cons] at hy; omega)
  induction xs with
  | nil => simpa [hasRun] using hs n [] h
  | cons x xs ih =>
    simp only [hasRun, Bool.or_eq_false_iff]
    exact ⟨hs n (x :: xs) h, ih (by simp only [List.length_cons] at h; omega)⟩

theorem startsWithRun_take (pred : Frame → Bool) (k : Nat) (xs : List Frame)
    (h : startsWithRun pred k xs = true) :
    (xs.take k).length = k ∧ ∀ f ∈ xs.take k, pred f = true := by
  induction k generalizing xs with
  | zero => simp
  | succ k ih =>
    cases xs with
    | nil => simp [startsWithRun] at h
    | cons x xs =>
      simp only [startsWithRun, Bool.and_eq_true] at h
      obtain ⟨h1, h2⟩ := ih xs h.2
      refine ⟨by simp [h1], ?_⟩
      intro f hf
      simp only [List.take_succ_cons, List.mem_cons] at hf
      rcases hf with rfl | hf
      · exact h.1
      · exact h2 f hf

/-- A sequence that holds a run of `n` frames satisfying `pred` splits at the first
such run. -/
theorem first_run (pred : Frame → Bool) (n : Nat) (hn : 0 < n) (fs : List Frame)
    (h : hasRun pred n fs = true) :
    ∃ quiet run rest, fs = quiet ++ run ++ rest ∧ run.length = n ∧
      (∀ f ∈ run, pred f = true) ∧ hasRun pred n (quiet ++ run.dropLast) = false := by
  induction fs with
  | nil =>
    obtain ⟨j, hj⟩ : ∃ j, n = j + 1 := ⟨n - 1, by omega⟩
    rw [hj] at h
    simp [hasRun, startsWithRun] at h
  | cons x xs ih =>
    cases hs : startsWithRun pred n (x :: xs) with
    | true =>
      obtain ⟨h1, h2⟩ := startsWithRun_take pred n (x :: xs) hs
      refine ⟨[], (x :: xs).take n, (x :: xs).drop n, by simp, h1, h2, ?_⟩
      apply hasRun_false_of_length_lt
      rw [List.nil_append, List.length_dropLast, h1]
      omega
    | false =>
      simp only [hasRun, hs, Bool.false_or] at h
      obtain ⟨q, run, rest, hfs, hlen, hall, hno⟩ := ih h
      refine ⟨x :: q, run, rest, by simp [hfs], hlen, hall, ?_⟩
      have hne : run ≠ [] := by intro h0; rw [h0] at hlen; simp at hlen; omega
      simp only [List.cons_append, hasRun, Bool.or_eq_false_iff]
      refine ⟨?_, hno⟩
      cases h' : startsWithRun pred n (x :: (q ++ run.dropLast)) with
      | false => rfl
      | true =>
        have := startsWithRun_append pred n (x :: (q ++ run.dropLast))
          ([run.getLast hne] ++ rest) h'
        rw [List.cons_append, List.append_assoc, ← List.append_assoc run.dropLast,
          List.dropLast_append_getLast, ← List.append_assoc, ← hfs, hs] at this
        exact absurd this (by simp)

/-- Every first Utterance comes from a sequence of the shape of `Gate.run_utterance`. -/
theorem Gate.first_utterance (sp si : Nat) (classify : Frame → Bool) (hsp : 0 < sp)
    (hsi : 0 < si) (fs : List Frame) (u : List Frame) (us : List (List Frame))
    (hemit : (Gate.run sp si classify Gate.init fs).2 = u :: us) :
    ∃ quiet pre body sil rest, fs = quiet ++ pre ++ body ++ sil ++ rest ∧
      pre.length = sp ∧ (∀ f ∈ pre, classify f = true) ∧
      hasRun classify sp (quiet ++ pre.dropLast) = false ∧
      sil.length = si ∧ (∀ f ∈ sil, classify f = false) ∧
      hasRun (fun f => !classify f) si (body ++ sil.dropLast) = false ∧
      u = pre ++ body ++ sil ∧ us = (Gate.run sp si classify Gate.init rest).2 := by
  have hrun : hasRun classify sp fs = true := by
    cases h : hasRun classify sp fs with
    | true => rfl
    | false =>
      have h1 : startsWithRun classify (sp - Gate.init.speechCount) fs = false := by
        cases h' : startsWithRun classify (sp - Gate.init.speechCount) fs with
        | false => rfl
        | true =>
          have h'' : startsWithRun classify sp fs = true := by simpa [Gate.init] using h'
          rw [hasRun_of_startsWithRun classify sp fs h''] at h
          exact absurd h (by simp)
      obtain ⟨c, p, -, hr⟩ := Gate.run_waiting sp si classify hsp fs Gate.init rfl hsp h1 h
      rw [hr] at hemit
      exact absurd hemit (by simp)
  obtain ⟨quiet, pre, rest1, hfs, hpreLen, hpre, hfirst⟩ := first_run classify sp hsp fs hrun
  have hpne : pre ≠ [] := by intro h; rw [h] at hpreLen; simp at hpreLen; omega
  have h1 := Gate.run_quiet sp si classify hsp quiet pre hpreLen hpre hfirst
  have h2 := Gate.run_voiced sp si classify pre Gate.init rfl hpre hpne
    (by simp [Gate.init, hpreLen])
  have hemit2 : (Gate.run sp si classify
      { Gate.init with mode := GateMode.Recording, speechCount := sp, preRoll := [],
                       utterance := Gate.init.preRoll ++ pre } rest1).2 = u :: us := by
    rw [hfs, Gate.run_append, Gate.run_append, h1, h2] at hemit
    simpa using hemit
  have hsrun : hasRun (fun f => !classify f) si rest1 = true := by
    cases h : hasRun (fun f => !classify f) si rest1 with
    | true => rfl
    | false =>
      have h1' : startsWithRun (fun f => !classify f) (si - 0) rest1 = false := by
        cases h' : startsWithRun (fun f => !classify f) (si - 0) rest1 with
        | false => rfl
        | true =>
          have h'' : startsWithRun (fun f => !classify f) si rest1 = true := by simpa using h'
          rw [hasRun_of_startsWithRun (fun f => !classify f) si rest1 h''] at h
          exact absurd h (by simp)
      obtain ⟨s', -, hr⟩ := Gate.run_recording sp si classify hsi rest1
        { Gate.init with mode := GateMode.Recording, speechCount := sp, preRoll := [],
                         utterance := Gate.init.preRoll ++ pre } rfl hsi h1' h
      rw [hr] at hemit2
      exact absurd hemit2 (by simp)
  obtain ⟨body, sil, rest, hrest1, hsilLen, hsil0, hclose⟩ :=
    first_run (fun f => !classify f) si hsi rest1 hsrun
  have hsil : ∀ f ∈ sil, classify f = false := fun f hf => by simpa using hsil0 f hf
  have hall := Gate.run_utterance sp si classify hsp hsi quiet pre body sil rest
    hpreLen hpre hfirst hsilLen hsil hclose
  have hfs2 : fs = quiet ++ pre ++ body ++ sil ++ rest := by
    rw [hfs, hrest1]; simp only [List.append_assoc]
  rw [hfs2, hall] at hemit
  simp only [List.cons.injEq] at hemit
  exact ⟨quiet, pre, body, sil, rest, hfs2, hpreLen, hpre, hfirst, hsilLen, hsil, hclose,
    hemit.1.symm, hemit.2.symm⟩

/-- C11: for thresholds speechFrames and silenceFrames of at least one frame and any
voice-activity predicate, the Gate of section 4.3, started in Waiting, behaves as
follows on every sequence of frames. It enters Recording at some frame of the
sequence if and only if the sequence holds speechFrames consecutive voiced frames.
When the sequence is made of frames without such a run, then the first run of
speechFrames voiced frames (the pre-roll), then further frames, then the first
run of silenceFrames consecutive silent frames after the pre-roll, then anything,
the first Utterance emitted is the pre-roll, the further frames and the silent
run, so it contains every frame from the first pre-roll frame through the last
frame before the silenceFrames-th consecutive silent frame; the Gate is then back
in its initial Waiting state and segments the rest in the same way. Every
sequence on which the Gate emits an Utterance is of this shape. -/
theorem gate_segments (speechFrames silenceFrames : Nat) (classify : Frame → Bool)
    (hsp : 0 < speechFrames) (hsi : 0 < silenceFrames) :
    (∀ fs : List Frame,
      GateMode.Recording ∈ Gate.modes speechFrames silenceFrames classify Gate.init fs ↔
        hasRun classify speechFrames fs = true) ∧
    (∀ quiet pre body sil rest : List Frame,
      pre.length = speechFrames → (∀ f ∈ pre, classify f = true) →
      hasRun classify speechFrames (quiet ++ pre.dropLast) = false →
      sil.length = silenceFrames → (∀ f ∈ sil, classify f = false) →
      hasRun (fun f => !classify f) silenceFrames (body ++ sil.dropLast) = false →
      ∃ utterance,
        Gate.run speechFrames silenceFrames classify Gate.init
            (quiet ++ pre ++ body ++ sil ++ rest)
          = ((Gate.run speechFrames silenceFrames classify Gate.init rest).1,
             utterance :: (Gate.run speechFrames silenceFrames classify Gate.init rest).2) ∧
        utterance = pre ++ body ++ sil ∧
        pre ++ body ++ sil.dropLast <+: utterance ∧
        Gate.run speechFrames silenceFrames classify Gate.init (quiet ++ pre ++ body ++ sil)
          = (Gate.init, [utterance])) ∧
    (∀ (fs utterance : List Frame) (later : List (List Frame)),
      (Gate.run speechFrames silenceFrames classify Gate.init fs).2 = utterance :: later →
      ∃ quiet pre body sil rest, fs = quiet ++ pre ++ body ++ sil ++ rest ∧
        pre.length = speechFrames ∧ (∀ f ∈ pre, classify f = true) ∧
        hasRun classify speechFrames (quiet ++ pre.dropLast) = false ∧
        sil.length = silenceFrames ∧ (∀ f ∈ sil, classify f = false) ∧
        hasRun (fun f => !classify f) silenceFrames (body ++ sil.dropLast) = false ∧
        utterance = pre ++ body ++ sil ∧
        later = (Gate.run speechFrames silenceFrames classify Gate.init rest).2) := by
  refine ⟨?_, ?_, ?_⟩
  · intro fs
    rw [Gate.recording_iff speechFrames silenceFrames classify hsp fs Gate.init rfl hsp]
    constructor
    · rintro (h | h)
      · exact hasRun_of_startsWithRun classify speechFrames fs (by simpa [Gate.init] using h)
      · exact h
    · exact Or.inr
  · intro quiet pre body sil rest h1 h2 h3 h4 h5 h6
    refine ⟨pre ++ body ++ sil, ?_, rfl, ?_, ?_⟩
    · exact Gate.run_utterance speechFrames silenceFrames classify hsp hsi quiet pre body sil rest
        h1 h2 h3 h4 h5 h6
    · have hsne : sil ≠ [] := by intro h; rw [h] at h4; simp at h4; omega
      refine ⟨[sil.getLast hsne], ?_⟩
      rw [List.append_assoc, List.dropLast_append_getLast]
    · have h := Gate.run_utterance speechFrames silenceFrames classify hsp hsi quiet pre body sil
        [] h1 h2 h3 h4 h5 h6
      simpa [Gate.run] using h
  · intro fs utterance later hemit
    exact Gate.first_utterance speechFrames silenceFrames classify hsp hsi fs utterance later hemit

/-- Witness for C11: 50 silent frames, 43 voiced frames and 25 silent frames with
speechFrames = 3 and silenceFrames = 25. One Utterance is emitted: the 43 voiced
frames followed by the 25 silent frames; the Gate ends in its initial state. -/
theorem gate_segments_witness :
    Gate.run 3 25 exampleClassify Gate.init
        (List.replicate 50 silentFrame ++ List.replicate 3 voicedFrame
          ++ List.replicate 40 voicedFrame ++ List.replicate 25 silentFrame)
      = (Gate.init,
         [List.replicate 3 voicedFrame ++ List.replicate 40 voicedFrame
           ++ List.replicate 25 silentFrame]) := by
  obtain ⟨u, -, hu, -, hrun⟩ := (gate_segments 3 25 exampleClassify (by decide) (by decide)).2.1
    (List.replicate 50 silentFrame) (List.replicate 3 voicedFrame)
    (List.replicate 40 voicedFrame) (List.replicate 25 silentFrame) []
    (by decide) (by decide) (by decide) (by decide) (by decide) (by decide)
  rw [hrun, hu]

end Tars
